import Mathlib

/-!
# Detective Quest (`algoritmos_avancados.c`): clue tree, suspect table, exploration

A shallow embedding of the C program.

* A C string is the list of its bytes before the terminating NUL, each byte
  seen as `unsigned char` (a number in `1..255`).  A `const char*` argument
  that the code tests against `NULL` is an `Option CStr`.
* A nullable pointer to a tree node (`Sala*`, `PistaNode*`) is an inductive
  tree whose `nil` constructor is the `NULL` pointer.
* A chain of `HashNode`s is the list of its nodes from the bucket head on;
  the table is its array of `HASH_SIZE` chains.
* A function that mutates through a pointer returns the new value.
-/

namespace DetectiveQuest

/-! ## Constants and C strings -/

/-- The macro `MAX_NOME`. -/
def MAX_NOME : Nat := 64

/-- The macro `MAX_PISTA`. -/
def MAX_PISTA : Nat := 128

/-- The macro `HASH_SIZE`. -/
def HASH_SIZE : Nat := 101

/-- The content of a C string: its bytes before the terminating NUL. -/
abbrev CStr := List Nat

/-- The libc `strlen`. -/
def strlen (s : CStr) : Nat := s.length

/-- The libc `strcmp`: the sign of the first differing pair of bytes (compared
as `unsigned char`); a proper prefix is smaller. -/
def strcmp : CStr → CStr → Int
  | [], [] => 0
  | [], _ :: _ => -1
  | _ :: _, [] => 1
  | a :: as, b :: bs =>
    if a < b then -1 else if b < a then 1 else strcmp as bs

/-- The idiom `strncpy(dst, src, n - 1); dst[n - 1] = 0;` on a buffer of `n`
bytes: the string left in `dst` is `src` cut to its first `n - 1` bytes. -/
def strncpyTerm (n : Nat) (src : CStr) : CStr := src.take (n - 1)

/-! ## The tree of collected clues -/

/-- The C type `PistaNode*`: `nil` is `NULL`, `node pista esquerda direita` a
pointer to a node. -/
inductive PistaNode where
  | nil : PistaNode
  | node (pista : CStr) (esquerda direita : PistaNode) : PistaNode
  deriving DecidableEq, Repr

/-- The C function `inserirPista`, returning the updated root. -/
def inserirPista (raiz : PistaNode) (pista : Option CStr) : PistaNode :=
  match pista with
  | none => raiz
  | some s =>
    if strlen s = 0 then raiz
    else
      match raiz with
      | .nil => .node (strncpyTerm MAX_PISTA s) .nil .nil
      | .node p e d =>
        if strcmp s p < 0 then .node p (inserirPista e pista) d
        else if strcmp s p > 0 then .node p e (inserirPista d pista)
        else .node p e d

/-- The C function `exibirPistas`: the texts in the order they are printed
(in-order traversal). -/
def exibirPistas : PistaNode → List CStr
  | .nil => []
  | .node p e d => exibirPistas e ++ p :: exibirPistas d

/-- Inserting a sequence of texts one after another, starting from `raiz`. -/
def inserirTodas (raiz : PistaNode) (ps : List (Option CStr)) : PistaNode :=
  ps.foldl inserirPista raiz

/-! ## The map of rooms -/

/-- The C type `Sala*`: `nil` is `NULL`, `node nome pista esquerda direita` a
pointer to a room. -/
inductive Sala where
  | nil : Sala
  | node (nome pista : CStr) (esquerda direita : Sala) : Sala
  deriving DecidableEq, Repr

/-- The C function `criarSala`; `nome` is not tested against `NULL` by the
code, `pista` is. -/
def criarSala (nome : CStr) (pista : Option CStr) : Sala :=
  .node (strncpyTerm MAX_NOME nome)
    (match pista with
     | some p => if strlen p > 0 then strncpyTerm MAX_PISTA p else []
     | none => [])
    .nil .nil

/-- A room as `criarSala` leaves it, with the fields `esquerda` and `direita`
assigned afterwards (`hall->esquerda = salaEstar;`). -/
def ligar (s e d : Sala) : Sala :=
  match s with
  | .nil => .nil
  | .node n p _ _ => .node n p e d

/-- A map all of whose rooms were made by `criarSala` and then wired: every
room is what `criarSala` returns on its own name and clue. -/
def construidaComCriarSala : Sala → Prop
  | .nil => True
  | .node n p e d =>
    criarSala n (some p) = .node n p .nil .nil
      ∧ construidaComCriarSala e ∧ construidaComCriarSala d

instance construidaComCriarSalaDec : (s : Sala) → Decidable (construidaComCriarSala s)
  | .nil => isTrue trivial
  | .node _ _ e d =>
    have := construidaComCriarSalaDec e
    have := construidaComCriarSalaDec d
    inferInstanceAs (Decidable (_ ∧ _ ∧ _))

/-! ## The table of suspects -/

/-- The C struct `HashNode` without its `proximo` link. -/
structure HashNode where
  pista : CStr
  suspeito : CStr
  deriving DecidableEq, Repr

/-- The C struct `HashTable`: `HASH_SIZE` chains. -/
structure HashTable where
  buckets : Fin HASH_SIZE → List HashNode

/-- The loop of `hash_djb2` on an `unsigned long` of 64 bits:
`hash = ((hash << 5) + hash) + (unsigned char)c`. -/
def hashLaco (hash : Nat) : CStr → Nat
  | [] => hash
  | c :: resto =>
    hashLaco ((((hash <<< 5) % 2 ^ 64 + hash) % 2 ^ 64 + c % 256) % 2 ^ 64) resto

/-- The C function `hash_djb2`: `(unsigned int)(hash % HASH_SIZE)`. -/
def hash_djb2 (str : CStr) : Nat := (hashLaco 5381 str % HASH_SIZE) % 2 ^ 32

/-- The index of `ht->buckets[hash_djb2(pista)]`, which is within the array. -/
def indice (pista : CStr) : Fin HASH_SIZE :=
  ⟨hash_djb2 pista, Nat.lt_of_le_of_lt (Nat.mod_le _ _) (Nat.mod_lt _ (by decide))⟩

/-- The C function `inicializarHash`. -/
def inicializarHash : HashTable := ⟨fun _ => []⟩

/-- The `while (cur)` loop of `inserirNaHash`: the chain with the suspect of
the first node whose key equals `pista` overwritten, or `none` when the loop
ends without finding one. -/
def atualizarCadeia (pista suspeito : CStr) : List HashNode → Option (List HashNode)
  | [] => none
  | cur :: proximo =>
    if strcmp cur.pista pista = 0 then
      some ({ cur with suspeito := strncpyTerm MAX_NOME suspeito } :: proximo)
    else
      (atualizarCadeia pista suspeito proximo).map (cur :: ·)

/-- The C function `inserirNaHash`; `suspeito` is not tested against `NULL`
by the code, `pista` is. -/
def inserirNaHash (ht : HashTable) (pista : Option CStr) (suspeito : CStr) : HashTable :=
  match pista with
  | none => ht
  | some s =>
    if strlen s = 0 then ht
    else
      let idx := indice s
      match atualizarCadeia s suspeito (ht.buckets idx) with
      | some cadeia => ⟨Function.update ht.buckets idx cadeia⟩
      | none =>
        let novo : HashNode :=
          { pista := strncpyTerm MAX_PISTA s, suspeito := strncpyTerm MAX_NOME suspeito }
        ⟨Function.update ht.buckets idx (novo :: ht.buckets idx)⟩

/-- The `while (cur)` loop of `encontrarSuspeito`. -/
def procurarCadeia (pista : CStr) : List HashNode → Option CStr
  | [] => none
  | cur :: proximo =>
    if strcmp cur.pista pista = 0 then some cur.suspeito
    else procurarCadeia pista proximo

/-- The C function `encontrarSuspeito`; `none` is the `NULL` result. -/
def encontrarSuspeito (ht : HashTable) (pista : Option CStr) : Option CStr :=
  match pista with
  | none => none
  | some s =>
    if strlen s = 0 then none
    else procurarCadeia s (ht.buckets (indice s))

/-- A table built from `inicializarHash` by `inserirNaHash` calls. -/
def inserirTodasNaHash (ht : HashTable) (ps : List (Option CStr × CStr)) : HashTable :=
  ps.foldl (fun t kv => inserirNaHash t kv.1 kv.2) ht

/-- Tables reachable from `inicializarHash` by `inserirNaHash` calls. -/
inductive Alcancavel : HashTable → Prop
  | inicio : Alcancavel inicializarHash
  | passo (ht : HashTable) (pista : Option CStr) (suspeito : CStr) :
      Alcancavel ht → Alcancavel (inserirNaHash ht pista suspeito)

/-- The number of chain nodes of the whole table whose key is `pista`. -/
def entradasDe (ht : HashTable) (pista : CStr) : Nat :=
  ((List.finRange HASH_SIZE).map
    (fun i => (ht.buckets i).countP (fun n => decide (n.pista = pista)))).sum

/-! ## Exploration and judgement -/

/-- The top of the loop body of `explorarSalas`: the clue of the room shown is
inserted when it is not empty. -/
def coletar (atual : Sala) (pistas : PistaNode) : PistaNode :=
  match atual with
  | .nil => pistas
  | .node _ p _ _ => if strlen p > 0 then inserirPista pistas (some p) else pistas

/-- The `if` cascade on `escolha` in `explorarSalas`: the room the cursor is
on afterwards, or `none` when the loop is left by `break`. -/
def escolher (atual : Sala) (escolha : Char) : Option Sala :=
  match atual with
  | .nil => none
  | .node _ _ e d =>
    if escolha = 'e' ∨ escolha = 'E' then
      (if e ≠ .nil then some e else some atual)
    else if escolha = 'd' ∨ escolha = 'D' then
      (if d ≠ .nil then some d else some atual)
    else if escolha = 's' ∨ escolha = 'S' then none
    else some atual

/-- The `while (1)` loop of `explorarSalas`.  `entrada` holds the characters
that the successive `scanf(" %c", &escolha)` calls read.  When it runs out the
stream is at end of file: every later `scanf` fails, `escolha` is `'x'` for
ever and the loop never ends, which is the result `none`. -/
def explorarLaco : Sala → PistaNode → List Char → Option PistaNode
  | _, _, [] => none
  | atual, pistas, escolha :: resto =>
    match escolher atual escolha with
    | none => some (coletar atual pistas)
    | some proxima => explorarLaco proxima (coletar atual pistas) resto

/-- The C function `explorarSalas`: the value of `*pistasRaiz` when the
function returns, `none` when it never returns. -/
def explorarSalas (atual : Sala) (pistasRaiz : PistaNode) (entrada : List Char) :
    Option PistaNode :=
  match atual with
  | .nil => some pistasRaiz
  | .node _ _ _ _ => explorarLaco atual pistasRaiz entrada

/-- The C function `contarPistasParaSuspeito`; `suspeitoAlvo` is not tested
against `NULL` by the code.  The `int` counter is a natural number here: it
cannot exceed the number of nodes of the tree. -/
def contarPistasParaSuspeito (raiz : PistaNode) (ht : HashTable) (suspeitoAlvo : CStr) : Nat :=
  match raiz with
  | .nil => 0
  | .node p e d =>
    contarPistasParaSuspeito e ht suspeitoAlvo
      + (match encontrarSuspeito ht (some p) with
         | some suspeito => if strcmp suspeito suspeitoAlvo = 0 then 1 else 0
         | none => 0)
      + contarPistasParaSuspeito d ht suspeitoAlvo

/-- What `verificarSuspeitoFinal` prints: the invalid-name message, or the
count followed by one of the two verdicts. -/
inductive Veredicto where
  | invalido : Veredicto
  | suficiente (qtd : Nat) : Veredicto
  | insuficiente (qtd : Nat) : Veredicto
  deriving DecidableEq, Repr

/-- The C function `verificarSuspeitoFinal`. -/
def verificarSuspeitoFinal (pistasRaiz : PistaNode) (ht : HashTable)
    (acusado : Option CStr) : Veredicto :=
  match acusado with
  | none => .invalido
  | some a =>
    if strlen a = 0 then .invalido
    else
      let qtd := contarPistasParaSuspeito pistasRaiz ht a
      if qtd ≥ 2 then .suficiente qtd else .insuficiente qtd

/-! ## Invariants used to state the properties -/

/-- The search-tree invariant of the clue tree: at every node the texts of the
left subtree compare strictly less and those of the right subtree strictly
greater, under `strcmp`. -/
def ArvoreDeBusca : PistaNode → Prop
  | .nil => True
  | .node p e d =>
    (∀ x ∈ exibirPistas e, strcmp x p < 0) ∧ (∀ x ∈ exibirPistas d, strcmp x p > 0)
      ∧ ArvoreDeBusca e ∧ ArvoreDeBusca d

instance arvoreDeBuscaDec : (t : PistaNode) → Decidable (ArvoreDeBusca t)
  | .nil => isTrue trivial
  | .node _ e d =>
    have := arvoreDeBuscaDec e
    have := arvoreDeBuscaDec d
    inferInstanceAs (Decidable (_ ∧ _ ∧ _ ∧ _))

/-- Strictly ascending under `strcmp`. -/
def EstritamenteCrescente (l : List CStr) : Prop := l.Pairwise (fun a b => strcmp a b < 0)

instance estritamenteCrescenteDec (l : List CStr) : Decidable (EstritamenteCrescente l) :=
  inferInstanceAs (Decidable (List.Pairwise _ _))

/-- A text of 128 bytes (`'a'` repeated), one more than a node can hold. -/
def textoLongo : CStr := List.replicate 128 97

/-- A text that a node of the clue tree can hold whole: `NULL`, or a string
shorter than the `MAX_PISTA` bytes of the buffer `PistaNode.pista`. -/
def CabeNoNo : Option CStr → Prop
  | none => True
  | some s => strlen s < MAX_PISTA

instance cabeNoNoDec : (o : Option CStr) → Decidable (CabeNoNo o)
  | none => isTrue trivial
  | some s => inferInstanceAs (Decidable (strlen s < MAX_PISTA))

/-- Every chain node sits in the bucket that `hash_djb2` gives for its own
stored key. -/
def ChavesNoLugar (ht : HashTable) : Prop :=
  ∀ i, ∀ n ∈ ht.buckets i, indice n.pista = i

/-- The stored keys of each chain are pairwise distinct. -/
def ChavesDistintas (ht : HashTable) : Prop :=
  ∀ i, ((ht.buckets i).map (fun n => n.pista)).Nodup

/-- Tables reachable from `inicializarHash` by `inserirNaHash` calls whose
keys all fit the buffer `HashNode.pista`. -/
inductive AlcancavelCabendo : HashTable → Prop
  | inicio : AlcancavelCabendo inicializarHash
  | passo (ht : HashTable) (pista : Option CStr) (suspeito : CStr) :
      AlcancavelCabendo ht → CabeNoNo pista →
      AlcancavelCabendo (inserirNaHash ht pista suspeito)

/-- A key of 127 bytes (`'a'` repeated): the longest a chain node holds. -/
def chaveCheia : CStr := List.replicate 127 97

/-- The key `chaveCheia` followed by `'y'`: 128 bytes, with the same
`hash_djb2` as `chaveCheia`. -/
def chaveLonga : CStr := chaveCheia ++ [121]

/-- A suspect name of 64 bytes (`'B'` repeated), one more than a chain node
holds. -/
def nomeLongo : CStr := List.replicate 64 66

/-- The rooms the cursor occupies while the commands `cs` (none of them a
stop) are obeyed from `atual`: the starting room and every room reached by a
successful move, in the order of the visit. -/
def salasOcupadas : Sala → List Char → List Sala
  | .nil, _ => []
  | .node n p e d, [] => [.node n p e d]
  | .node n p e d, c :: cs =>
    if (c = 'e' ∨ c = 'E') ∧ e ≠ .nil then .node n p e d :: salasOcupadas e cs
    else if (c = 'd' ∨ c = 'D') ∧ d ≠ .nil then .node n p e d :: salasOcupadas d cs
    else salasOcupadas (.node n p e d) cs

/-- The non-empty clues of a list of rooms. -/
def pistasNaoVazias (salas : List Sala) : List CStr :=
  salas.filterMap (fun s =>
    match s with
    | .nil => none
    | .node _ p _ _ => if strlen p > 0 then some p else none)

/-- The sorted, duplicate-free list of the texts of `l`, in `strcmp` order. -/
def ordenadaSemRepeticao (l : List CStr) : List CStr :=
  (l.dedup).insertionSort (fun a b => strcmp a b ≤ 0)

/-- The key `chaveCheia` followed by `'z'`: 128 bytes, in another bucket than
`chaveCheia`. -/
def chaveLongaZ : CStr := chaveCheia ++ [122]

/-! ## The strings, the map and the table of `main` and of the scenarios -/

/-- The bytes of one character of a string literal: the source file is in
UTF-8 and the compiler copies its bytes. -/
def utf8DoCaractere (c : Char) : List Nat :=
  if c.toNat < 128 then [c.toNat]
  else if c.toNat < 2048 then [192 + c.toNat / 64, 128 + c.toNat % 64]
  else if c.toNat < 65536 then
    [224 + c.toNat / 4096, 128 + c.toNat / 64 % 64, 128 + c.toNat % 64]
  else
    [240 + c.toNat / 262144, 128 + c.toNat / 4096 % 64, 128 + c.toNat / 64 % 64,
      128 + c.toNat % 64]

/-- A C string literal of the source. -/
def literal (s : String) : CStr := s.data.flatMap utf8DoCaractere

/-- The clue of the room "Hall de Entrada". -/
def pistaPegadas : CStr := literal "Pegadas misteriosas no tapete"

/-- The clue of the room "Sala de Estar". -/
def pistaColar : CStr := literal "Um colar quebrado"

/-- The clue of the room "Biblioteca". -/
def pistaLivro : CStr := literal "Livro com páginas arrancadas"

/-- The clue of the room "Cozinha". -/
def pistaFaca : CStr := literal "Faca com marcas de sangue"

/-- The clue of the room "Jardim". -/
def pistaLuva : CStr := literal "Luva de couro encontrada"

/-- The clue of the room "Porão Secreto". -/
def pistaMapa : CStr := literal "Mapa antigo da mansão"

/-- The clue of the room "Laboratório". -/
def pistaFrascos : CStr := literal "Frascos com rótulos estranhos"

/-- The suspect "Sr. Branco". -/
def srBranco : CStr := literal "Sr. Branco"

/-- The suspect "Sra. Rosa". -/
def sraRosa : CStr := literal "Sra. Rosa"

/-- The suspect "Prof. Verde". -/
def profVerde : CStr := literal "Prof. Verde"

/-- The suspect "Sr. Cinza". -/
def srCinza : CStr := literal "Sr. Cinza"

/-- The map of seven rooms that `main` builds: the rooms made by `criarSala`
and wired by the assignments to `esquerda` and `direita`. -/
def mapaMain : Sala :=
  let jardim := criarSala (literal "Jardim") (some pistaLuva)
  let porao := criarSala (literal "Porão Secreto") (some pistaMapa)
  let laboratorio := criarSala (literal "Laboratório") (some pistaFrascos)
  let cozinha := ligar (criarSala (literal "Cozinha") (some pistaFaca)) .nil porao
  let salaEstar := ligar (criarSala (literal "Sala de Estar") (some pistaColar)) cozinha jardim
  let biblioteca := ligar (criarSala (literal "Biblioteca") (some pistaLivro)) .nil laboratorio
  ligar (criarSala (literal "Hall de Entrada") (some pistaPegadas)) salaEstar biblioteca

/-- The table that `main` fills: `inicializarHash` and the seven
`inserirNaHash` calls, in the order of the source. -/
def tabelaMain : HashTable :=
  inserirTodasNaHash inicializarHash
    [(some pistaPegadas, srBranco), (some pistaColar, sraRosa), (some pistaLivro, profVerde),
     (some pistaFaca, srBranco), (some pistaLuva, srCinza), (some pistaMapa, sraRosa),
     (some pistaFrascos, profVerde)]

/-- The map of the scenarios of the spec: the root "Hall" with the left
child "SalaEstar" and the right child "Biblioteca", each with its clue, made
with `criarSala` and wired. -/
def mapaCenario : Sala :=
  ligar (criarSala (literal "Hall") (some pistaPegadas))
    (criarSala (literal "SalaEstar") (some pistaColar))
    (criarSala (literal "Biblioteca") (some pistaLivro))

/-- The table of the scenarios of the spec: `inicializarHash`, then the three
clues of `mapaCenario` inserted with their suspects by `inserirNaHash`. -/
def tabelaCenario : HashTable :=
  inserirTodasNaHash inicializarHash
    [(some pistaPegadas, srBranco), (some pistaColar, sraRosa), (some pistaLivro, profVerde)]

/-- The names of a list of rooms. -/
def nomesDasSalas (salas : List Sala) : List CStr :=
  salas.filterMap (fun s =>
    match s with
    | .nil => none
    | .node n _ _ _ => some n)

/-- The tree of collected clues after the path left, stop on `mapaCenario`. -/
def arvoreCenario : PistaNode := .node pistaPegadas .nil (.node pistaColar .nil .nil)

/-- The tree of collected clues after the path left, left, stop on `mapaMain`:
the clues of "Hall de Entrada", "Sala de Estar" and "Cozinha". -/
def arvoreCozinha : PistaNode :=
  .node pistaPegadas (.node pistaFaca .nil .nil) (.node pistaColar .nil .nil)

/-! ## Definitions that follow the words of the spec -/

/-- The reference djb2 of the spec: from the seed 5381, `h := h * 33 + byte`
for each byte, on 64 bits, reduced modulo the bucket count. -/
def djb2Referencia (s : CStr) : Nat :=
  s.foldl (fun h byte => (h * 33 + byte) % 2 ^ 64) 5381 % HASH_SIZE

/-- What one node with the text `p` adds to the count of
`contarPistasParaSuspeito`. -/
def pesoDaPista (ht : HashTable) (suspeitoAlvo p : CStr) : Nat :=
  match encontrarSuspeito ht (some p) with
  | some suspeito => if strcmp suspeito suspeitoAlvo = 0 then 1 else 0
  | none => 0

/-- The value of `*pistasRaiz` once the loop of `explorarSalas` has consumed
the commands `cs` and shown the room it is then on, or has left by `break`
before the end of `cs`. -/
def pistasAposLaco : Sala → PistaNode → List Char → PistaNode
  | atual, pistas, [] => coletar atual pistas
  | atual, pistas, escolha :: resto =>
    match escolher atual escolha with
    | none => coletar atual pistas
    | some proxima => pistasAposLaco proxima (coletar atual pistas) resto

/-- The value of `*pistasRaiz` once `explorarSalas` has consumed the commands
`cs`, or has returned before the end of `cs`. -/
def pistasApos (atual : Sala) (pistasRaiz : PistaNode) (cs : List Char) : PistaNode :=
  match atual with
  | .nil => pistasRaiz
  | .node _ _ _ _ => pistasAposLaco atual pistasRaiz cs

/-- The clues of all the rooms of a map. -/
def todasAsPistas : Sala → List CStr
  | .nil => []
  | .node _ p e d => p :: (todasAsPistas e ++ todasAsPistas d)

/-! ## Order facts about `strcmp` -/

theorem strcmp_self (a : CStr) : strcmp a a = 0 := by
  induction a with
  | nil => rfl
  | cons x xs ih => simp [strcmp, ih]

theorem strcmp_eq_zero_iff (a b : CStr) : strcmp a b = 0 ↔ a = b := by
  constructor
  · intro h
    induction a generalizing b with
    | nil => cases b with
      | nil => rfl
      | cons y ys => simp [strcmp] at h
    | cons x xs ih => cases b with
      | nil => simp [strcmp] at h
      | cons y ys =>
        simp only [strcmp] at h
        split_ifs at h with h1 h2
        all_goals first
          | (have hxy : x = y := by omega
             rw [hxy, ih ys h])
          | simp at h
  · rintro rfl
    exact strcmp_self a

theorem strcmp_neg_iff_pos (a b : CStr) : strcmp a b < 0 ↔ 0 < strcmp b a := by
  induction a generalizing b with
  | nil => cases b <;> simp [strcmp]
  | cons x xs ih => cases b with
    | nil => simp [strcmp]
    | cons y ys =>
      simp only [strcmp]
      split_ifs <;> first | omega | simp | exact ih ys

theorem strcmp_trans {a b c : CStr} (hab : strcmp a b < 0) (hbc : strcmp b c < 0) :
    strcmp a c < 0 := by
  induction a generalizing b c with
  | nil => cases c with
    | nil => cases b <;> simp [strcmp] at hab hbc
    | cons z zs => simp [strcmp]
  | cons x xs ih => cases b with
    | nil => simp [strcmp] at hab
    | cons y ys => cases c with
      | nil => simp [strcmp] at hbc
      | cons z zs =>
        simp only [strcmp] at hab hbc ⊢
        split_ifs at hab hbc ⊢ <;> first | omega | exact ih hab hbc

/-! ## Insertion into the clue tree -/

theorem strncpyTerm_of_lt {n : Nat} {s : CStr} (h : strlen s < n) : strncpyTerm n s = s := by
  unfold strncpyTerm strlen at *
  exact List.take_of_length_le (by omega)

theorem inserirPista_some_nil (s : CStr) (hs : strlen s ≠ 0) :
    inserirPista .nil (some s) = .node (strncpyTerm MAX_PISTA s) .nil .nil := by
  simp [inserirPista, hs]

theorem inserirPista_some_node (s p : CStr) (e d : PistaNode) (hs : strlen s ≠ 0) :
    inserirPista (.node p e d) (some s) =
      if strcmp s p < 0 then .node p (inserirPista e (some s)) d
      else if strcmp s p > 0 then .node p e (inserirPista d (some s))
      else .node p e d := by
  simp [inserirPista, hs]

theorem inserirPista_none (t : PistaNode) : inserirPista t none = t := by
  cases t <;> simp [inserirPista]

theorem inserirPista_vazia (t : PistaNode) (s : CStr) (hs : strlen s = 0) :
    inserirPista t (some s) = t := by
  cases t <;> simp [inserirPista, hs]

/-- Every text printed after an insertion was printed before or is the stored
copy of the inserted text. -/
theorem mem_exibir_inserir {t : PistaNode} {s x : CStr}
    (h : x ∈ exibirPistas (inserirPista t (some s))) :
    x ∈ exibirPistas t ∨ (x = strncpyTerm MAX_PISTA s ∧ strlen s ≠ 0) := by
  by_cases hs : strlen s = 0
  · rw [inserirPista_vazia t s hs] at h; exact Or.inl h
  induction t with
  | nil =>
    rw [inserirPista_some_nil s hs] at h
    simp [exibirPistas] at h
    exact Or.inr ⟨h, hs⟩
  | node p e d ihe ihd =>
    rw [inserirPista_some_node s p e d hs] at h
    split_ifs at h with h1 h2
    · simp only [exibirPistas, List.mem_append, List.mem_cons] at h ⊢
      rcases h with h | h | h
      · rcases ihe h with h' | h'
        · exact Or.inl (Or.inl h')
        · exact Or.inr h'
      · exact Or.inl (Or.inr (Or.inl h))
      · exact Or.inl (Or.inr (Or.inr h))
    · simp only [exibirPistas, List.mem_append, List.mem_cons] at h ⊢
      rcases h with h | h | h
      · exact Or.inl (Or.inl h)
      · exact Or.inl (Or.inr (Or.inl h))
      · rcases ihd h with h' | h'
        · exact Or.inl (Or.inr (Or.inr h'))
        · exact Or.inr h'
    · exact Or.inl h

/-- No insertion removes a text. -/
theorem mem_inserir_of_mem {t : PistaNode} {x : CStr} (s : Option CStr)
    (h : x ∈ exibirPistas t) : x ∈ exibirPistas (inserirPista t s) := by
  cases s with
  | none => rw [inserirPista_none]; exact h
  | some s =>
    by_cases hs : strlen s = 0
    · rw [inserirPista_vazia t s hs]; exact h
    induction t with
    | nil => simp [exibirPistas] at h
    | node p e d ihe ihd =>
      rw [inserirPista_some_node s p e d hs]
      simp only [exibirPistas, List.mem_append, List.mem_cons] at h
      split_ifs with h1 h2
      · simp only [exibirPistas, List.mem_append, List.mem_cons]
        rcases h with h | h | h
        · exact Or.inl (ihe h)
        · exact Or.inr (Or.inl h)
        · exact Or.inr (Or.inr h)
      · simp only [exibirPistas, List.mem_append, List.mem_cons]
        rcases h with h | h | h
        · exact Or.inl h
        · exact Or.inr (Or.inl h)
        · exact Or.inr (Or.inr (ihd h))
      · simp only [exibirPistas, List.mem_append, List.mem_cons]; exact h

/-- A text that fits the node buffer is in the tree once inserted, when the
tree is a search tree. -/
theorem mem_inserir_self {t : PistaNode} {s : CStr} (hs : strlen s ≠ 0)
    (hlen : strlen s < MAX_PISTA) : s ∈ exibirPistas (inserirPista t (some s)) := by
  induction t with
  | nil =>
    rw [inserirPista_some_nil s hs, strncpyTerm_of_lt hlen]
    simp [exibirPistas]
  | node p e d ihe ihd =>
    rw [inserirPista_some_node s p e d hs]
    split_ifs with h1 h2
    · simp only [exibirPistas, List.mem_append, List.mem_cons]; exact Or.inl ihe
    · simp only [exibirPistas, List.mem_append, List.mem_cons]; exact Or.inr (Or.inr ihd)
    · have h0 : strcmp s p = 0 := by omega
      rw [(strcmp_eq_zero_iff s p).1 h0]
      simp [exibirPistas]

/-- Inserting a text that fits the node buffer keeps the search-tree
invariant. -/
theorem arvoreDeBusca_inserir {t : PistaNode} (s : CStr) (hlen : strlen s < MAX_PISTA)
    (ht : ArvoreDeBusca t) : ArvoreDeBusca (inserirPista t (some s)) := by
  by_cases hs : strlen s = 0
  · rw [inserirPista_vazia t s hs]; exact ht
  induction t with
  | nil =>
    rw [inserirPista_some_nil s hs]
    simp [ArvoreDeBusca, exibirPistas]
  | node p e d ihe ihd =>
    obtain ⟨hl, hr, he, hd⟩ := ht
    rw [inserirPista_some_node s p e d hs]
    split_ifs with h1 h2
    · refine ⟨?_, hr, ihe he, hd⟩
      intro x hx
      rcases mem_exibir_inserir hx with h | ⟨h, _⟩
      · exact hl x h
      · rw [h, strncpyTerm_of_lt hlen]; exact h1
    · refine ⟨hl, ?_, he, ihd hd⟩
      intro x hx
      rcases mem_exibir_inserir hx with h | ⟨h, _⟩
      · exact hr x h
      · rw [h, strncpyTerm_of_lt hlen]; exact h2
    · exact ⟨hl, hr, he, hd⟩

/-- The in-order sequence of a search tree is strictly ascending, and
conversely. -/
theorem arvoreDeBusca_iff_crescente (t : PistaNode) :
    ArvoreDeBusca t ↔ EstritamenteCrescente (exibirPistas t) := by
  unfold EstritamenteCrescente
  induction t with
  | nil => simp [ArvoreDeBusca, exibirPistas]
  | node p e d ihe ihd =>
    simp only [ArvoreDeBusca, exibirPistas, List.pairwise_append, List.pairwise_cons,
      List.mem_cons, ihe, ihd]
    constructor
    · rintro ⟨hl, hr, he, hd⟩
      refine ⟨he, ⟨fun x hx => (strcmp_neg_iff_pos p x).2 (hr x hx), hd⟩, ?_⟩
      rintro a ha b (rfl | hb)
      · exact hl a ha
      · exact strcmp_trans (hl a ha) ((strcmp_neg_iff_pos _ _).2 (hr b hb))
    · rintro ⟨he, ⟨hr, hd⟩, hl⟩
      exact ⟨fun x hx => hl x hx p (Or.inl rfl),
        fun x hx => (strcmp_neg_iff_pos p x).1 (hr x hx), he, hd⟩

theorem crescente_nodup {l : List CStr} (h : EstritamenteCrescente l) : l.Nodup := by
  unfold EstritamenteCrescente at h
  refine h.imp ?_
  intro a b hab heq
  rw [heq, strcmp_self] at hab
  exact absurd hab (by decide)

/-! ## Sequences of insertions -/

theorem inserirPista_cabe_ou_nada (t : PistaNode) (s : Option CStr)
    (hlen : ∀ x, s = some x → strlen x < MAX_PISTA) (ht : ArvoreDeBusca t) :
    ArvoreDeBusca (inserirPista t s) := by
  cases s with
  | none => rw [inserirPista_none]; exact ht
  | some x => exact arvoreDeBusca_inserir x (hlen x rfl) ht

theorem arvoreDeBusca_inserirTodas (ps : List (Option CStr))
    (hlen : ∀ x, some x ∈ ps → strlen x < MAX_PISTA) (t : PistaNode) (ht : ArvoreDeBusca t) :
    ArvoreDeBusca (inserirTodas t ps) := by
  induction ps generalizing t with
  | nil => exact ht
  | cons s ps ih =>
    simp only [inserirTodas, List.foldl_cons]
    refine ih (fun x hx => hlen x (List.mem_cons_of_mem _ hx)) _ ?_
    exact inserirPista_cabe_ou_nada t s (fun x hx => hlen x (hx ▸ List.mem_cons_self _ _)) ht

theorem mem_inserirTodas_iff (ps : List (Option CStr))
    (hlen : ∀ x, some x ∈ ps → strlen x < MAX_PISTA) (t : PistaNode) (x : CStr) :
    x ∈ exibirPistas (inserirTodas t ps) ↔ x ∈ exibirPistas t ∨ (x ≠ [] ∧ some x ∈ ps) := by
  induction ps generalizing t with
  | nil => simp [inserirTodas]
  | cons s ps ih =>
    simp only [inserirTodas, List.foldl_cons]
    have ih' := ih (fun y hy => hlen y (List.mem_cons_of_mem _ hy)) (inserirPista t s)
    simp only [inserirTodas] at ih'
    rw [ih']
    constructor
    · rintro (h | ⟨h1, h2⟩)
      · cases s with
        | none => rw [inserirPista_none] at h; exact Or.inl h
        | some y =>
          have hy : strlen y < MAX_PISTA := hlen y (List.mem_cons_self _ _)
          rcases mem_exibir_inserir h with h' | ⟨h', h0⟩
          · exact Or.inl h'
          · rw [strncpyTerm_of_lt hy] at h'
            subst h'
            refine Or.inr ⟨?_, List.mem_cons_self _ _⟩
            intro hx; exact h0 (by simp [strlen, hx])
      · exact Or.inr ⟨h1, List.mem_cons_of_mem _ h2⟩
    · rintro (h | ⟨h1, h2⟩)
      · exact Or.inl (mem_inserir_of_mem s h)
      · rcases List.mem_cons.1 h2 with h3 | h3
        · left
          rw [← h3]
          have hx : strlen x < MAX_PISTA := hlen x (h3 ▸ List.mem_cons_self _ _)
          exact mem_inserir_self (by simpa [strlen] using h1) hx
        · exact Or.inr ⟨h1, h3⟩

/-! ## The clue tree: dedup, ordering, duplicate insertion -/

theorem count_eq_one_of_nodup {α : Type} [BEq α] [LawfulBEq α] {a : α} {l : List α}
    (hn : l.Nodup) (h : a ∈ l) : l.count a = 1 := by
  induction l with
  | nil => simp at h
  | cons x xs ih =>
    rw [List.nodup_cons] at hn
    rw [List.count_cons]
    rcases List.mem_cons.1 h with rfl | h1
    · simp [List.count_eq_zero_of_not_mem hn.1]
    · have hne : x ≠ a := fun hxa => hn.1 (hxa ▸ h1)
      simp [ih hn.2 h1, hne]

/-- C1 (as amended): for every sequence of clue texts that each fit the node
buffer (at most `MAX_PISTA - 1 = 127` bytes; `NULL` allowed), inserted one
after another with `inserirPista` into the empty tree, the in-order sequence
holds each distinct non-empty text of the sequence exactly once, and nothing
else, whatever the duplicates and the order. -/
theorem dedup_textos_que_cabem (ps : List (Option CStr)) (hcabe : ∀ o ∈ ps, CabeNoNo o)
    (s : CStr) :
    (exibirPistas (inserirTodas .nil ps)).count s = if s ≠ [] ∧ some s ∈ ps then 1 else 0 := by
  have hlen : ∀ x, some x ∈ ps → strlen x < MAX_PISTA := fun x hx => hcabe (some x) hx
  have hnd : (exibirPistas (inserirTodas .nil ps)).Nodup :=
    crescente_nodup ((arvoreDeBusca_iff_crescente _).1
      (arvoreDeBusca_inserirTodas ps hlen .nil trivial))
  have hmem := mem_inserirTodas_iff ps hlen .nil s
  simp only [exibirPistas, List.not_mem_nil, false_or] at hmem
  split_ifs with h
  · exact count_eq_one_of_nodup hnd (hmem.2 h)
  · exact List.count_eq_zero_of_not_mem (fun hx => h (hmem.1 hx))

/-- Witness of C1 (as amended): `"b", "a", "b", NULL, "", "aa"` leaves `"b"`
exactly once. -/
theorem dedup_textos_que_cabem_witness :
    (exibirPistas (inserirTodas .nil
      [some [98], some [97], some [98], none, some [], some [97, 97]])).count [98] = 1 :=
  (dedup_textos_que_cabem [some [98], some [97], some [98], none, some [], some [97, 97]]
    (by decide) [98]).trans (by decide)

set_option maxRecDepth 4000 in
/-- C1 (as stated) fails: a text of 128 bytes is in the sequence but not in the
in-order sequence, which holds its first 127 bytes instead, and twice when the
text is inserted twice. -/
theorem dedup_falha_texto_longo :
    textoLongo ≠ [] ∧ some textoLongo ∈ [some textoLongo]
      ∧ (exibirPistas (inserirTodas .nil [some textoLongo])).count textoLongo = 0
      ∧ exibirPistas (inserirTodas .nil [some textoLongo]) = [List.replicate 127 97]
      ∧ (exibirPistas (inserirTodas .nil [some textoLongo, some textoLongo])).count
          (List.replicate 127 97) = 2 := by
  decide

set_option maxRecDepth 4000 in
/-- C2 at the failing input: inserting the same text of 128 bytes twice leaves
two nodes with the same 127 bytes, the second as right child of the first, so
the tree is not a search tree and its in-order sequence not strictly
ascending. -/
theorem ordem_quebrada_por_texto_longo :
    inserirTodas .nil [some textoLongo, some textoLongo]
        = .node (List.replicate 127 97) .nil (.node (List.replicate 127 97) .nil .nil)
      ∧ ¬ ArvoreDeBusca (inserirTodas .nil [some textoLongo, some textoLongo])
      ∧ ¬ EstritamenteCrescente
          (exibirPistas (inserirTodas .nil [some textoLongo, some textoLongo])) := by
  decide

/-- C10: on a tree that satisfies the ordering invariant, inserting a text
equal to the text of one of its nodes returns the very same tree. -/
theorem inserirPista_duplicata (t : PistaNode) (s : CStr) (ht : ArvoreDeBusca t)
    (hs : s ∈ exibirPistas t) : inserirPista t (some s) = t := by
  by_cases h0 : strlen s = 0
  · exact inserirPista_vazia t s h0
  induction t with
  | nil => simp [exibirPistas] at hs
  | node p e d ihe ihd =>
    obtain ⟨hl, hr, he, hd⟩ := ht
    rw [inserirPista_some_node s p e d h0]
    simp only [exibirPistas, List.mem_append, List.mem_cons] at hs
    rcases hs with hs | hs | hs
    · rw [if_pos (hl s hs), ihe he hs]
    · subst hs
      rw [strcmp_self]; simp
    · have hgt := hr s hs
      rw [if_neg (by omega), if_pos hgt, ihd hd hs]

/-- Witness of C10: `"b"` into the tree `"a" < "b" < "c"` with root `"b"`. -/
theorem inserirPista_duplicata_witness :
    inserirPista (.node [98] (.node [97] .nil .nil) (.node [99] .nil .nil)) (some [98])
      = .node [98] (.node [97] .nil .nil) (.node [99] .nil .nil) :=
  inserirPista_duplicata _ [98] (by decide) (by decide)

/-! ## Chains of the suspect table -/

theorem inserirNaHash_none (ht : HashTable) (v : CStr) : inserirNaHash ht none v = ht := rfl

theorem inserirNaHash_vazia (ht : HashTable) (k v : CStr) (hk : strlen k = 0) :
    inserirNaHash ht (some k) v = ht := by
  simp [inserirNaHash, hk]

theorem encontrarSuspeito_some (ht : HashTable) (k : CStr) (hk : strlen k ≠ 0) :
    encontrarSuspeito ht (some k) = procurarCadeia k (ht.buckets (indice k)) := by
  simp [encontrarSuspeito, hk]

/-- The buckets after an insertion with a non-empty key: only the bucket of
the key changes. -/
theorem buckets_inserirNaHash (ht : HashTable) (k v : CStr) (hk : strlen k ≠ 0)
    (i : Fin HASH_SIZE) :
    (inserirNaHash ht (some k) v).buckets i =
      if i = indice k then
        (match atualizarCadeia k v (ht.buckets (indice k)) with
         | some cadeia => cadeia
         | none => { pista := strncpyTerm MAX_PISTA k, suspeito := strncpyTerm MAX_NOME v }
                     :: ht.buckets (indice k))
      else ht.buckets i := by
  simp only [inserirNaHash, hk, if_false]
  cases atualizarCadeia k v (ht.buckets (indice k)) with
  | none =>
    by_cases hi : i = indice k
    · subst hi; simp
    · simp [hi, Function.update_noteq hi]
  | some c =>
    by_cases hi : i = indice k
    · subst hi; simp
    · simp [hi, Function.update_noteq hi]

theorem atualizarCadeia_none {k v : CStr} {c : List HashNode}
    (h : atualizarCadeia k v c = none) : ∀ n ∈ c, n.pista ≠ k := by
  induction c with
  | nil => simp
  | cons x xs ih =>
    simp only [atualizarCadeia] at h
    split_ifs at h with h1
    simp only [Option.map_eq_none'] at h
    intro n hn
    rcases List.mem_cons.1 hn with rfl | hn
    · intro heq; exact h1 ((strcmp_eq_zero_iff _ _).2 heq)
    · exact ih h n hn

theorem procurarCadeia_none {k : CStr} {c : List HashNode} (h : ∀ n ∈ c, n.pista ≠ k) :
    procurarCadeia k c = none := by
  induction c with
  | nil => rfl
  | cons x xs ih =>
    have hx : strcmp x.pista k ≠ 0 := fun h0 =>
      h x (List.mem_cons_self _ _) ((strcmp_eq_zero_iff _ _).1 h0)
    simp only [procurarCadeia, hx, if_false]
    exact ih (fun n hn => h n (List.mem_cons_of_mem _ hn))

theorem procurarCadeia_atualizar {k v : CStr} {c c1 : List HashNode}
    (h : atualizarCadeia k v c = some c1) :
    procurarCadeia k c1 = some (strncpyTerm MAX_NOME v) := by
  induction c generalizing c1 with
  | nil => simp [atualizarCadeia] at h
  | cons x xs ih =>
    simp only [atualizarCadeia] at h
    split_ifs at h with h1
    · simp only [Option.some.injEq] at h
      subst h
      simp [procurarCadeia, h1]
    · simp only [Option.map_eq_some'] at h
      obtain ⟨c2, hc2, rfl⟩ := h
      simp [procurarCadeia, h1, ih hc2]

theorem map_pista_atualizar {k v : CStr} {c c1 : List HashNode}
    (h : atualizarCadeia k v c = some c1) :
    c1.map (fun n => n.pista) = c.map (fun n => n.pista) := by
  induction c generalizing c1 with
  | nil => simp [atualizarCadeia] at h
  | cons x xs ih =>
    simp only [atualizarCadeia] at h
    split_ifs at h with h1
    · simp only [Option.some.injEq] at h
      subst h
      simp
    · simp only [Option.map_eq_some'] at h
      obtain ⟨c2, hc2, rfl⟩ := h
      simp [ih hc2]

theorem mem_pista_atualizar {k v : CStr} {c c1 : List HashNode}
    (h : atualizarCadeia k v c = some c1) : k ∈ c1.map (fun n => n.pista) := by
  induction c generalizing c1 with
  | nil => simp [atualizarCadeia] at h
  | cons x xs ih =>
    simp only [atualizarCadeia] at h
    split_ifs at h with h1
    · simp only [Option.some.injEq] at h
      subst h
      simp [(strcmp_eq_zero_iff _ _).1 h1]
    · simp only [Option.map_eq_some'] at h
      obtain ⟨c2, hc2, rfl⟩ := h
      simp only [List.map_cons, List.mem_cons]
      exact Or.inr (ih hc2)

/-- Overwriting the suspect of another key does not change what the loop of
`encontrarSuspeito` finds for `k`. -/
theorem procurarCadeia_atualizar_outra {k k1 v : CStr} {c c1 : List HashNode} (hne : k1 ≠ k)
    (h : atualizarCadeia k1 v c = some c1) : procurarCadeia k c1 = procurarCadeia k c := by
  induction c generalizing c1 with
  | nil => simp [atualizarCadeia] at h
  | cons x xs ih =>
    simp only [atualizarCadeia] at h
    split_ifs at h with h1
    · simp only [Option.some.injEq] at h
      subst h
      have hx : x.pista = k1 := (strcmp_eq_zero_iff _ _).1 h1
      have hxk : strcmp x.pista k ≠ 0 := fun h0 => hne (hx ▸ (strcmp_eq_zero_iff _ _).1 h0)
      simp [procurarCadeia, hxk]
    · simp only [Option.map_eq_some'] at h
      obtain ⟨c2, hc2, rfl⟩ := h
      simp [procurarCadeia, ih hc2]

/-! ## Lookup after insertion -/

/-- What `encontrarSuspeito` returns for the key just inserted, when the key
is not empty and fits the buffer. -/
theorem encontrar_inserida (ht : HashTable) (k v : CStr) (hk : strlen k ≠ 0)
    (hlen : strlen k < MAX_PISTA) :
    encontrarSuspeito (inserirNaHash ht (some k) v) (some k)
      = some (strncpyTerm MAX_NOME v) := by
  rw [encontrarSuspeito_some _ k hk, buckets_inserirNaHash ht k v hk, if_pos rfl]
  cases h : atualizarCadeia k v (ht.buckets (indice k)) with
  | some c1 => exact procurarCadeia_atualizar h
  | none => simp [procurarCadeia, strncpyTerm_of_lt hlen, strcmp_self]

/-- An insertion with another key that fits the buffer (or with an empty or
`NULL` key) does not change what `encontrarSuspeito` returns for `k`. -/
theorem encontrar_inserir_outra (ht : HashTable) (k : Option CStr) (k1 : Option CStr)
    (v : CStr) (hne : k1 ≠ k) (hcabe : CabeNoNo k1) :
    encontrarSuspeito (inserirNaHash ht k1 v) k = encontrarSuspeito ht k := by
  cases k1 with
  | none => rfl
  | some s1 =>
    by_cases h1 : strlen s1 = 0
    · rw [inserirNaHash_vazia ht s1 v h1]
    cases k with
    | none => rfl
    | some s =>
      by_cases h0 : strlen s = 0
      · simp [encontrarSuspeito, h0]
      have hss : s1 ≠ s := fun h => hne (by rw [h])
      rw [encontrarSuspeito_some _ s h0, encontrarSuspeito_some _ s h0,
        buckets_inserirNaHash ht s1 v h1]
      split_ifs with hi
      · rw [← hi]
        cases h : atualizarCadeia s1 v (ht.buckets (indice s)) with
        | some c1 =>
          rw [← hi] at *
          simp only [h]
          exact procurarCadeia_atualizar_outra hss h
        | none =>
          rw [← hi] at *
          simp only [h]
          have hx : strcmp (strncpyTerm MAX_PISTA s1) s ≠ 0 := by
            rw [strncpyTerm_of_lt hcabe]
            exact fun h0 => hss ((strcmp_eq_zero_iff _ _).1 h0)
          simp [procurarCadeia, hx]
      · rfl

/-! ## Invariants of tables whose keys fit the buffer -/

theorem sum_map_unico {ι : Type} (l : List ι) (f : ι → Nat) (j : ι) (hn : l.Nodup)
    (hj : j ∈ l) (h0 : ∀ i, i ≠ j → f i = 0) : (l.map f).sum = f j := by
  induction l with
  | nil => simp at hj
  | cons x xs ih =>
    rw [List.nodup_cons] at hn
    simp only [List.map_cons, List.sum_cons]
    rcases List.mem_cons.1 hj with rfl | hj1
    · have hz : (xs.map f).sum = 0 := by
        apply List.sum_eq_zero
        intro y hy
        obtain ⟨i, hi, rfl⟩ := List.mem_map.1 hy
        exact h0 i (fun hij => hn.1 (hij ▸ hi))
      omega
    · have hx : f x = 0 := h0 x (fun hxj => hn.1 (hxj ▸ hj1))
      rw [hx, ih hn.2 hj1]; omega

theorem chavesNoLugar_inicial : ChavesNoLugar inicializarHash := by
  intro i n hn; simp [inicializarHash] at hn

theorem chavesDistintas_inicial : ChavesDistintas inicializarHash := by
  intro i; simp [inicializarHash]

theorem chavesNoLugar_inserir {ht : HashTable} (k : Option CStr) (v : CStr)
    (hcabe : CabeNoNo k) (h : ChavesNoLugar ht) : ChavesNoLugar (inserirNaHash ht k v) := by
  cases k with
  | none => exact h
  | some s =>
    by_cases h0 : strlen s = 0
    · rw [inserirNaHash_vazia ht s v h0]; exact h
    intro i n hn
    rw [buckets_inserirNaHash ht s v h0] at hn
    split_ifs at hn with hi
    · cases hc : atualizarCadeia s v (ht.buckets (indice s)) with
      | some c1 =>
        simp only [hc] at hn
        have hm : n.pista ∈ c1.map (fun n => n.pista) := List.mem_map_of_mem _ hn
        rw [map_pista_atualizar hc] at hm
        obtain ⟨m, hm1, hm2⟩ := List.mem_map.1 hm
        rw [← hm2, hi]; exact h _ m hm1
      | none =>
        simp only [hc] at hn
        rcases List.mem_cons.1 hn with rfl | hn1
        · simp only [strncpyTerm_of_lt hcabe]; exact hi.symm
        · rw [hi]; exact h _ n hn1
    · exact h i n hn

theorem chavesDistintas_inserir {ht : HashTable} (k : Option CStr) (v : CStr)
    (hcabe : CabeNoNo k) (h : ChavesDistintas ht) : ChavesDistintas (inserirNaHash ht k v) := by
  cases k with
  | none => exact h
  | some s =>
    by_cases h0 : strlen s = 0
    · rw [inserirNaHash_vazia ht s v h0]; exact h
    intro i
    rw [buckets_inserirNaHash ht s v h0]
    split_ifs with hi
    · cases hc : atualizarCadeia s v (ht.buckets (indice s)) with
      | some c1 =>
        simp only [hc]
        rw [map_pista_atualizar hc]; exact h _
      | none =>
        simp only [hc, List.map_cons, List.nodup_cons, strncpyTerm_of_lt hcabe]
        refine ⟨?_, h _⟩
        intro hm
        obtain ⟨m, hm1, hm2⟩ := List.mem_map.1 hm
        exact atualizarCadeia_none hc m hm1 hm2
    · exact h i

theorem invariantes_alcancavelCabendo {ht : HashTable} (h : AlcancavelCabendo ht) :
    ChavesNoLugar ht ∧ ChavesDistintas ht := by
  induction h with
  | inicio => exact ⟨chavesNoLugar_inicial, chavesDistintas_inicial⟩
  | passo ht k v _ hcabe ih =>
    exact ⟨chavesNoLugar_inserir k v hcabe ih.1, chavesDistintas_inserir k v hcabe ih.2⟩

/-- After an insertion with a non-empty key that fits the buffer, the key is
stored in its bucket. -/
theorem mem_pista_inserir (ht : HashTable) (k v : CStr) (hk : strlen k ≠ 0)
    (hlen : strlen k < MAX_PISTA) :
    k ∈ ((inserirNaHash ht (some k) v).buckets (indice k)).map (fun n => n.pista) := by
  rw [buckets_inserirNaHash ht k v hk, if_pos rfl]
  cases hc : atualizarCadeia k v (ht.buckets (indice k)) with
  | some c1 => exact mem_pista_atualizar hc
  | none => simp [strncpyTerm_of_lt hlen]

theorem countP_pista_eq_count (c : List HashNode) (k : CStr) :
    c.countP (fun n => decide (n.pista = k)) = (c.map (fun n => n.pista)).count k := by
  induction c with
  | nil => rfl
  | cons x xs ih =>
    simp only [List.map_cons, List.countP_cons, List.count_cons, ih]
    by_cases hx : x.pista = k <;> simp [hx]

/-- In a table whose keys are in their buckets and distinct within each
chain, a key stored in its bucket has exactly one node in the whole table. -/
theorem entradasDe_eq_one {ht : HashTable} {k : CStr} (h1 : ChavesNoLugar ht)
    (h2 : ChavesDistintas ht)
    (hk : k ∈ (ht.buckets (indice k)).map (fun n => n.pista)) : entradasDe ht k = 1 := by
  unfold entradasDe
  rw [sum_map_unico (List.finRange HASH_SIZE) _ (indice k) (List.nodup_finRange _)
    (List.mem_finRange _)]
  · rw [countP_pista_eq_count]
    exact count_eq_one_of_nodup (h2 _) hk
  · intro i hi
    rw [List.countP_eq_zero]
    intro n hn
    simp only [decide_eq_true_eq]
    intro hnk
    exact hi ((h1 i n hn).symm.trans (by rw [hnk]))

/-! ## The suspect table: read-your-write, unrelated insertions, overwrite -/

/-- C3 (as amended): for every table (reachable or not), every key `k` that
is not empty and fits the key buffer (at most `MAX_PISTA - 1 = 127` bytes) and
every suspect name `v`, `encontrarSuspeito(k)` right after
`inserirNaHash(k, v)` returns the first `MAX_NOME - 1 = 63` bytes of `v`, which
is `v` itself when `v` has at most 63 bytes. -/
theorem le_o_que_escreveu (ht : HashTable) (k v : CStr) (hk : k ≠ [])
    (hlen : strlen k < MAX_PISTA) :
    encontrarSuspeito (inserirNaHash ht (some k) v) (some k) = some (strncpyTerm MAX_NOME v)
      ∧ (strlen v < MAX_NOME →
          encontrarSuspeito (inserirNaHash ht (some k) v) (some k) = some v) := by
  have h0 : strlen k ≠ 0 := by simpa [strlen] using hk
  refine ⟨encontrar_inserida ht k v h0 hlen, fun hv => ?_⟩
  rw [encontrar_inserida ht k v h0 hlen, strncpyTerm_of_lt hv]

/-- Witness of C3 (as amended): key `"a"`, suspect `"B"`, on the empty table. -/
theorem le_o_que_escreveu_witness :
    encontrarSuspeito (inserirNaHash inicializarHash (some [97]) [66]) (some [97])
      = some [66] :=
  (le_o_que_escreveu inicializarHash [97] [66] (by decide) (by decide)).2 (by decide)

set_option maxRecDepth 4000 in
/-- C3 (as stated) fails on the empty table: with the empty key nothing is
stored and the lookup finds nothing; with a key of 128 bytes the lookup finds
nothing; with a suspect name of 64 bytes the lookup returns its first 63
bytes. -/
theorem le_o_que_escreveu_falha :
    Alcancavel inicializarHash
      ∧ encontrarSuspeito (inserirNaHash inicializarHash (some []) [66]) (some []) = none
      ∧ encontrarSuspeito (inserirNaHash inicializarHash (some textoLongo) [66])
          (some textoLongo) = none
      ∧ encontrarSuspeito (inserirNaHash inicializarHash (some [97]) nomeLongo) (some [97])
          = some (List.replicate 63 66)
      ∧ some (List.replicate 63 66) ≠ some nomeLongo :=
  ⟨.inicio, by decide, by decide, by decide, by decide⟩

set_option maxRecDepth 4000 in
/-- C4 (as stated) fails: on the empty table the key of 127 bytes `'a'` has
no entry; after one `inserirNaHash` with a different key (the same bytes
followed by `'y'`, which has the same `hash_djb2` and is stored as its first
127 bytes) the lookup of the first key returns the suspect given for the
second. -/
theorem insercao_alheia_perturba :
    Alcancavel inicializarHash
      ∧ chaveLonga ≠ chaveCheia
      ∧ hash_djb2 chaveLonga = hash_djb2 chaveCheia
      ∧ encontrarSuspeito inicializarHash (some chaveCheia) = none
      ∧ encontrarSuspeito (inserirTodasNaHash inicializarHash [(some chaveLonga, [88])])
          (some chaveCheia) = some [88] :=
  ⟨.inicio, by decide, by decide, by decide, by decide⟩

/-- C5 (as amended): for every table reachable from `inicializarHash` by
`inserirNaHash` calls whose keys fit the key buffer, every key `k` that is not
empty and fits the buffer (at most 127 bytes) and all suspect names `v1`,
`v2`: after `inserirNaHash(k, v1)` and `inserirNaHash(k, v2)` the whole table
has exactly one chain node with key `k`, and `encontrarSuspeito(k)` returns the
first 63 bytes of `v2`, which is `v2` itself when `v2` has at most 63 bytes. -/
theorem sobrescreve_sem_duplicar (ht : HashTable) (hreach : AlcancavelCabendo ht)
    (k v1 v2 : CStr) (hk : k ≠ []) (hlen : strlen k < MAX_PISTA) :
    entradasDe (inserirNaHash (inserirNaHash ht (some k) v1) (some k) v2) k = 1
      ∧ encontrarSuspeito (inserirNaHash (inserirNaHash ht (some k) v1) (some k) v2) (some k)
          = some (strncpyTerm MAX_NOME v2)
      ∧ (strlen v2 < MAX_NOME →
          encontrarSuspeito (inserirNaHash (inserirNaHash ht (some k) v1) (some k) v2)
            (some k) = some v2) := by
  have h0 : strlen k ≠ 0 := by simpa [strlen] using hk
  have hinv := invariantes_alcancavelCabendo
    (AlcancavelCabendo.passo _ (some k) v2 (AlcancavelCabendo.passo _ (some k) v1 hreach hlen)
      hlen)
  refine ⟨entradasDe_eq_one hinv.1 hinv.2 (mem_pista_inserir _ k v2 h0 hlen),
    encontrar_inserida _ k v2 h0 hlen, fun hv => ?_⟩
  rw [encontrar_inserida _ k v2 h0 hlen, strncpyTerm_of_lt hv]

/-- Witness of C5 (as amended): key `"a"`, suspects `"B"` then `"C"`, on the
empty table. -/
theorem sobrescreve_sem_duplicar_witness :
    entradasDe (inserirNaHash (inserirNaHash inicializarHash (some [97]) [66]) (some [97])
        [67]) [97] = 1
      ∧ encontrarSuspeito (inserirNaHash (inserirNaHash inicializarHash (some [97]) [66])
          (some [97]) [67]) (some [97]) = some [67] :=
  have h := sobrescreve_sem_duplicar inicializarHash .inicio [97] [66] [67] (by decide)
    (by decide)
  ⟨h.1, h.2.2 (by decide)⟩

set_option maxRecDepth 8000 in
/-- C5 (as stated) fails: with the empty key the table has no node for it and
the lookup finds nothing; with a suspect name of 64 bytes the lookup returns
its first 63 bytes; and on the table reached by one insertion of a key of 128
bytes (127 bytes `'a'` then `'z'`), the two insertions of the key of 127 bytes
`'a'` leave two nodes with that key in the table. -/
theorem sobrescreve_falha :
    entradasDe (inserirNaHash (inserirNaHash inicializarHash (some []) [66]) (some []) [67])
        [] = 0
      ∧ encontrarSuspeito (inserirNaHash (inserirNaHash inicializarHash (some []) [66])
          (some []) [67]) (some []) = none
      ∧ encontrarSuspeito (inserirNaHash (inserirNaHash inicializarHash (some [97]) [66])
          (some [97]) nomeLongo) (some [97]) ≠ some nomeLongo
      ∧ Alcancavel (inserirNaHash inicializarHash (some (chaveCheia ++ [122])) [88])
      ∧ entradasDe (inserirNaHash (inserirNaHash
          (inserirNaHash inicializarHash (some (chaveCheia ++ [122])) [88])
          (some chaveCheia) [66]) (some chaveCheia) [67]) chaveCheia = 2 :=
  ⟨by decide, by decide, by decide, .passo _ _ _ .inicio, by decide⟩

/-! ## Judgement and blocked moves -/

/-- C6: for every clue tree, table and accused name, the count returned by
`contarPistasParaSuspeito` is the number of nodes of the tree (listed by the
in-order traversal) for whose text `encontrarSuspeito` returns an entry equal,
byte for byte, to the accused name; a text without entry counts nothing. -/
theorem contar_eq_numero_de_nos (raiz : PistaNode) (ht : HashTable) (suspeitoAlvo : CStr) :
    contarPistasParaSuspeito raiz ht suspeitoAlvo
      = (exibirPistas raiz).countP
          (fun p => decide (encontrarSuspeito ht (some p) = some suspeitoAlvo)) := by
  induction raiz with
  | nil => rfl
  | node p e d ihe ihd =>
    simp only [contarPistasParaSuspeito, exibirPistas, List.countP_append, List.countP_cons,
      ihe, ihd]
    cases h : encontrarSuspeito ht (some p) with
    | none => simp
    | some s =>
      by_cases hs : strcmp s suspeitoAlvo = 0
      · have : s = suspeitoAlvo := (strcmp_eq_zero_iff _ _).1 hs
        subst this
        simp [hs]
        omega
      · have : s ≠ suspeitoAlvo := fun h1 => hs ((strcmp_eq_zero_iff _ _).2 h1)
        simp [hs, this]

/-- C7: for every clue tree and table, `verificarSuspeitoFinal` reports the
invalid name when the accused name is `NULL` or empty, whatever the tree and
the table hold; for a non-empty name it reports the sufficient verdict exactly
when the count of `contarPistasParaSuspeito` is at least 2, the insufficient
verdict exactly when it is less than 2, and always one of the two. -/
theorem veredicto_pelo_limiar (pistasRaiz : PistaNode) (ht : HashTable) (a : CStr)
    (ha : a ≠ []) :
    verificarSuspeitoFinal pistasRaiz ht none = .invalido
      ∧ verificarSuspeitoFinal pistasRaiz ht (some []) = .invalido
      ∧ (verificarSuspeitoFinal pistasRaiz ht (some a)
            = .suficiente (contarPistasParaSuspeito pistasRaiz ht a)
          ↔ 2 ≤ contarPistasParaSuspeito pistasRaiz ht a)
      ∧ (verificarSuspeitoFinal pistasRaiz ht (some a)
            = .insuficiente (contarPistasParaSuspeito pistasRaiz ht a)
          ↔ contarPistasParaSuspeito pistasRaiz ht a < 2) := by
  have h0 : strlen a ≠ 0 := by simpa [strlen] using ha
  refine ⟨rfl, rfl, ?_, ?_⟩
  · by_cases h : 2 ≤ contarPistasParaSuspeito pistasRaiz ht a
    · simp [verificarSuspeitoFinal, h0, h]
    · simp [verificarSuspeitoFinal, h0, h]
  · by_cases h : 2 ≤ contarPistasParaSuspeito pistasRaiz ht a
    · simp [verificarSuspeitoFinal, h0, h]
    · simp [verificarSuspeitoFinal, h0, h]; omega

/-- Witness of C7: the tree with the texts `"a"` and `"b"`, both mapped to the
suspect `"X"`, accused `"X"`: count 2, sufficient. -/
theorem veredicto_pelo_limiar_witness :
    verificarSuspeitoFinal (.node [97] .nil (.node [98] .nil .nil))
        (inserirNaHash (inserirNaHash inicializarHash (some [97]) [88]) (some [98]) [88])
        (some [88]) = .suficiente 2 :=
  ((veredicto_pelo_limiar (.node [97] .nil (.node [98] .nil .nil))
      (inserirNaHash (inserirNaHash inicializarHash (some [97]) [88]) (some [98]) [88])
      [88] (by decide)).2.2.1.2 (by decide)).trans (by decide)

/-- Inserting twice a text that fits the node buffer is inserting it once,
on any tree. -/
theorem inserirPista_idem (t : PistaNode) (s : CStr) (hlen : strlen s < MAX_PISTA) :
    inserirPista (inserirPista t (some s)) (some s) = inserirPista t (some s) := by
  by_cases h0 : strlen s = 0
  · rw [inserirPista_vazia t s h0, inserirPista_vazia t s h0]
  induction t with
  | nil =>
    rw [inserirPista_some_nil s h0, inserirPista_some_node _ _ _ _ h0, strncpyTerm_of_lt hlen,
      strcmp_self]
    simp
  | node p e d ihe ihd =>
    rw [inserirPista_some_node s p e d h0]
    split_ifs with h1 h2
    · rw [inserirPista_some_node _ _ _ _ h0, if_pos h1, ihe]
    · rw [inserirPista_some_node _ _ _ _ h0, if_neg h1, if_pos h2, ihd]
    · rw [inserirPista_some_node _ _ _ _ h0, if_neg h1, if_neg h2]

theorem coletar_node (n p : CStr) (e d : Sala) (pistas : PistaNode) :
    coletar (.node n p e d) pistas = inserirPista pistas (some p) := by
  by_cases h0 : strlen p = 0
  · rw [inserirPista_vazia _ p h0]; simp [coletar, h0]
  · simp [coletar, Nat.pos_of_ne_zero h0]

/-- C9: in `explorarSalas`, for every room (its clue in the `MAX_PISTA` bytes
of the field `pista`) and every clue tree the loop starts its body with, a
command left on a room without left child, or right on a room without right
child, leaves the exploration state as it was when the command was read: the
cursor stays on the room, and the clue tree after the loop has shown the room
again (and inserted its clue again) is the clue tree the command was read
with.  The rest of the exploration therefore runs as if the command had not
been given. -/
theorem comando_bloqueado_nada_muda (n p : CStr) (e d : Sala) (pistas : PistaNode)
    (escolha : Char) (hp : strlen p < MAX_PISTA)
    (hbloq : ((escolha = 'e' ∨ escolha = 'E') ∧ e = .nil)
      ∨ ((escolha = 'd' ∨ escolha = 'D') ∧ d = .nil)) :
    escolher (.node n p e d) escolha = some (.node n p e d)
      ∧ coletar (.node n p e d) (coletar (.node n p e d) pistas)
          = coletar (.node n p e d) pistas
      ∧ ∀ resto, explorarLaco (.node n p e d) pistas (escolha :: resto)
          = explorarLaco (.node n p e d) pistas resto := by
  have hesc : escolher (.node n p e d) escolha = some (.node n p e d) := by
    rcases hbloq with ⟨hc, he⟩ | ⟨hc, hd⟩
    · simp [escolher, hc, he]
    · have hne : ¬ (escolha = 'e' ∨ escolha = 'E') := by
        rcases hc with rfl | rfl <;> decide
      simp [escolher, hc, hd, hne]
  have hcol : coletar (.node n p e d) (coletar (.node n p e d) pistas)
      = coletar (.node n p e d) pistas := by
    rw [coletar_node, coletar_node, inserirPista_idem _ _ hp]
  refine ⟨hesc, hcol, fun resto => ?_⟩
  rw [explorarLaco, hesc]
  cases resto with
  | nil => simp [explorarLaco]
  | cons c cs => simp only [explorarLaco, hcol]

/-- Witness of C9: `'e'` on a room with the clue `"k"` and no children. -/
theorem comando_bloqueado_nada_muda_witness :
    escolher (.node [72] [107] .nil .nil) 'e' = some (.node [72] [107] .nil .nil)
      ∧ coletar (.node [72] [107] .nil .nil) (coletar (.node [72] [107] .nil .nil) .nil)
          = coletar (.node [72] [107] .nil .nil) .nil
      ∧ explorarLaco (.node [72] [107] .nil .nil) .nil ['e', 's']
          = explorarLaco (.node [72] [107] .nil .nil) .nil ['s'] :=
  have h := comando_bloqueado_nada_muda [72] [107] .nil .nil .nil 'e' (by decide)
    (Or.inl ⟨Or.inl rfl, rfl⟩)
  ⟨h.1, h.2.1, h.2.2 ['s']⟩

/-! ## Maps built with `criarSala` -/

theorem strncpyTerm_idem (n : Nat) (s : CStr) :
    strncpyTerm n (strncpyTerm n s) = strncpyTerm n s := by
  simp [strncpyTerm, List.take_take]

/-- A room returned by `criarSala` and wired to maps built with `criarSala`
is a map built with `criarSala`. -/
theorem construida_ligar (nome : CStr) (pista : Option CStr) (e d : Sala)
    (he : construidaComCriarSala e) (hd : construidaComCriarSala d) :
    construidaComCriarSala (ligar (criarSala nome pista) e d) := by
  refine ⟨?_, he, hd⟩
  simp only [criarSala, Sala.node.injEq, and_true, strncpyTerm_idem, true_and]
  cases pista with
  | none => simp [strlen]
  | some p =>
    by_cases h0 : strlen p > 0
    · simp only [h0, if_true, strncpyTerm_idem]
      split_ifs with h1
      · rfl
      · simp only [strlen, gt_iff_lt, not_lt, Nat.le_zero, List.length_eq_zero] at h1
        exact h1.symm
    · simp only [h0, if_false]
      simp [strlen]

/-- Every room of a map built with `criarSala` is `criarSala` of its own
name and clue, wired to its children. -/
theorem construida_eq_ligar {n p : CStr} {e d : Sala}
    (h : construidaComCriarSala (.node n p e d)) :
    Sala.node n p e d = ligar (criarSala n (some p)) e d := by
  have h1 := h.1
  simp only [criarSala, Sala.node.injEq, and_true] at h1
  simp only [criarSala, ligar, Sala.node.injEq, and_true]
  exact ⟨h1.1.symm, h1.2.symm⟩

/-! ## Rooms occupied and the sorted list of their clues -/

instance strcmpLeTotal : IsTotal CStr (fun a b => strcmp a b ≤ 0) where
  total a b := by
    by_cases h : strcmp a b ≤ 0
    · exact Or.inl h
    · right
      have h1 : strcmp b a < 0 := (strcmp_neg_iff_pos b a).2 (by omega)
      omega

instance strcmpLeTrans : IsTrans CStr (fun a b => strcmp a b ≤ 0) where
  trans a b c hab hbc := by
    show strcmp a c ≤ 0
    by_cases h1 : strcmp a b = 0
    · rw [(strcmp_eq_zero_iff a b).1 h1]; exact hbc
    by_cases h2 : strcmp b c = 0
    · rw [← (strcmp_eq_zero_iff b c).1 h2]; exact hab
    have hlt : strcmp a c < 0 := strcmp_trans (b := b) (by omega) (by omega)
    omega

instance strcmpLeAntisymm : IsAntisymm CStr (fun a b => strcmp a b ≤ 0) where
  antisymm a b hab hba := by
    by_cases h : strcmp a b = 0
    · exact (strcmp_eq_zero_iff a b).1 h
    · have h1 : 0 < strcmp b a := (strcmp_neg_iff_pos a b).1 (by omega)
      omega

/-- A strictly ascending list is the sorted, duplicate-free list of any list
with the same members. -/
theorem crescente_eq_ordenada {l m : List CStr} (hl : EstritamenteCrescente l)
    (hmem : ∀ x, x ∈ l ↔ x ∈ m) : l = ordenadaSemRepeticao m := by
  unfold ordenadaSemRepeticao
  have hs1 : l.Sorted (fun a b => strcmp a b ≤ 0) :=
    List.Pairwise.imp (fun h => Int.le_of_lt h) hl
  have hs2 := List.sorted_insertionSort (fun a b : CStr => strcmp a b ≤ 0) m.dedup
  have hp2 := List.perm_insertionSort (fun a b : CStr => strcmp a b ≤ 0) m.dedup
  have hn2 : (List.insertionSort (fun a b : CStr => strcmp a b ≤ 0) m.dedup).Nodup :=
    hp2.nodup_iff.2 (List.nodup_dedup m)
  refine List.eq_of_perm_of_sorted ?_ hs1 hs2
  rw [List.perm_ext_iff_of_nodup (crescente_nodup hl) hn2]
  intro x
  rw [hmem x, hp2.mem_iff, List.mem_dedup]

theorem mem_pistasNaoVazias {salas : List Sala} {x : CStr} :
    x ∈ pistasNaoVazias salas ↔ x ≠ [] ∧ ∃ n e d, Sala.node n x e d ∈ salas := by
  unfold pistasNaoVazias
  rw [List.mem_filterMap]
  constructor
  · rintro ⟨s, hs, h⟩
    cases s with
    | nil => simp at h
    | node n p e d =>
      simp only [gt_iff_lt] at h
      split_ifs at h with h0
      simp only [Option.some.injEq] at h
      subst h
      refine ⟨?_, n, e, d, hs⟩
      intro hx; simp [hx, strlen] at h0
  · rintro ⟨hx, n, e, d, hs⟩
    refine ⟨_, hs, ?_⟩
    have : 0 < strlen x := by
      cases x with
      | nil => exact absurd rfl hx
      | cons _ _ => simp [strlen]
    simp [this]

theorem mem_salasOcupadas_self (n p : CStr) (e d : Sala) (cs : List Char) :
    Sala.node n p e d ∈ salasOcupadas (.node n p e d) cs := by
  induction cs with
  | nil => simp [salasOcupadas]
  | cons c cs ih =>
    simp only [salasOcupadas]
    split_ifs
    · exact List.mem_cons_self _ _
    · exact List.mem_cons_self _ _
    · exact ih

theorem mem_exibir_coletar {n p : CStr} {e d : Sala} (hp : strlen p < MAX_PISTA)
    (pistas : PistaNode) (x : CStr) :
    x ∈ exibirPistas (coletar (.node n p e d) pistas)
      ↔ x ∈ exibirPistas pistas ∨ (x = p ∧ x ≠ []) := by
  rw [coletar_node]
  have h := mem_inserirTodas_iff [some p] (by simpa using hp) pistas x
  simp only [inserirTodas, List.foldl_cons, List.foldl_nil, List.mem_singleton,
    Option.some.injEq] at h
  rw [h]
  constructor
  · rintro (h1 | ⟨h1, h2⟩)
    · exact Or.inl h1
    · exact Or.inr ⟨h2, h1⟩
  · rintro (h1 | ⟨h1, h2⟩)
    · exact Or.inl h1
    · exact Or.inr ⟨h2, h1⟩

theorem construida_pista_cabe {n p : CStr} {e d : Sala}
    (h : construidaComCriarSala (.node n p e d)) : strlen p < MAX_PISTA := by
  have h1 := h.1
  simp only [criarSala, Sala.node.injEq, and_true] at h1
  by_cases h0 : strlen p > 0
  · rw [if_pos h0] at h1
    have h2 := congrArg List.length h1.2
    simp only [strncpyTerm, List.length_take, MAX_PISTA] at h2
    simp only [strlen, MAX_PISTA]
    omega
  · simp only [strlen, MAX_PISTA] at *
    omega

/-! ## Exploration collects the clues of the rooms occupied -/

/-- The loop of `explorarSalas` on commands without stop followed by a stop:
it returns, the tree stays a search tree, and its texts are those it had plus
the non-empty clues of the rooms occupied. -/
theorem explorarLaco_coleta (cs : List Char) (hcs : ∀ c ∈ cs, c ≠ 's' ∧ c ≠ 'S')
    (parar : Char) (hparar : parar = 's' ∨ parar = 'S') (n p : CStr) (e d : Sala)
    (hmapa : construidaComCriarSala (.node n p e d)) (pistas : PistaNode)
    (hpistas : ArvoreDeBusca pistas) :
    ∃ T, explorarLaco (.node n p e d) pistas (cs ++ [parar]) = some T ∧ ArvoreDeBusca T
      ∧ ∀ x, x ∈ exibirPistas T
          ↔ x ∈ exibirPistas pistas
            ∨ x ∈ pistasNaoVazias (salasOcupadas (.node n p e d) cs) := by
  have hstop : parar ≠ 'e' ∧ parar ≠ 'E' ∧ parar ≠ 'd' ∧ parar ≠ 'D' := by
    rcases hparar with rfl | rfl <;> decide
  induction cs generalizing n p e d pistas with
  | nil =>
    have hp := construida_pista_cabe hmapa
    refine ⟨coletar (.node n p e d) pistas, ?_, ?_, ?_⟩
    · simp [explorarLaco, escolher, hstop, hparar]
    · rw [coletar_node]; exact arvoreDeBusca_inserir p hp hpistas
    · intro x
      rw [mem_exibir_coletar hp, mem_pistasNaoVazias]
      simp only [salasOcupadas, List.mem_singleton, Sala.node.injEq]
      constructor
      · rintro (h | ⟨h1, h2⟩)
        · exact Or.inl h
        · exact Or.inr ⟨h2, n, e, d, rfl, h1, rfl, rfl⟩
      · rintro (h | ⟨h1, _, _, _, _, h2, _, _⟩)
        · exact Or.inl h
        · exact Or.inr ⟨h2, h1⟩
  | cons c cs ih =>
    have hp := construida_pista_cabe hmapa
    have hc := hcs c (List.mem_cons_self _ _)
    have hcs1 : ∀ c ∈ cs, c ≠ 's' ∧ c ≠ 'S' := fun c1 h1 => hcs c1 (List.mem_cons_of_mem _ h1)
    have hcol : ArvoreDeBusca (coletar (.node n p e d) pistas) := by
      rw [coletar_node]; exact arvoreDeBusca_inserir p hp hpistas
    have hself : ∀ x, (x = p ∧ x ≠ []) →
        x ∈ pistasNaoVazias (salasOcupadas (.node n p e d) (c :: cs)) := by
      rintro x ⟨rfl, hx⟩
      exact mem_pistasNaoVazias.2 ⟨hx, n, e, d, mem_salasOcupadas_self n x e d (c :: cs)⟩
    by_cases hesq : (c = 'e' ∨ c = 'E') ∧ e ≠ .nil
    · -- a successful move to the left
      cases e with
      | nil => exact absurd rfl hesq.2
      | node n1 p1 e1 d1 =>
        obtain ⟨T, hT, hTb, hTm⟩ := ih hcs1 n1 p1 e1 d1 hmapa.2.1 _ hcol
        refine ⟨T, ?_, hTb, ?_⟩
        · simp only [List.cons_append, explorarLaco, escolher, hesq.1, if_true]
          simpa using hT
        · intro x
          rw [hTm x, mem_exibir_coletar hp]
          simp only [salasOcupadas, hesq, ne_eq, not_false_eq_true, and_self, if_true]
          simp only [mem_pistasNaoVazias, List.mem_cons, Sala.node.injEq]
          constructor
          · rintro ((h | ⟨h1, h2⟩) | ⟨h1, h2⟩)
            · exact Or.inl h
            · exact Or.inr ⟨h2, n, _, d, Or.inl ⟨rfl, h1, rfl, rfl⟩⟩
            · obtain ⟨a, b, c1, h3⟩ := h2
              exact Or.inr ⟨h1, a, b, c1, Or.inr h3⟩
          · rintro (h | ⟨h1, a, b, c1, h2 | h2⟩)
            · exact Or.inl (Or.inl h)
            · exact Or.inl (Or.inr ⟨h2.2.1, h1⟩)
            · exact Or.inr ⟨h1, a, b, c1, h2⟩
    by_cases hdir : (c = 'd' ∨ c = 'D') ∧ d ≠ .nil
    · -- a successful move to the right
      have hne : ¬ (c = 'e' ∨ c = 'E') := by
        rcases hdir.1 with rfl | rfl <;> decide
      cases d with
      | nil => exact absurd rfl hdir.2
      | node n1 p1 e1 d1 =>
        obtain ⟨T, hT, hTb, hTm⟩ := ih hcs1 n1 p1 e1 d1 hmapa.2.2 _ hcol
        refine ⟨T, ?_, hTb, ?_⟩
        · simp only [List.cons_append, explorarLaco, escolher, hne, hdir.1, if_true, if_false]
          simpa using hT
        · intro x
          rw [hTm x, mem_exibir_coletar hp]
          simp only [salasOcupadas, hne, false_and, if_false, hdir, ne_eq, not_false_eq_true,
            and_self, if_true]
          simp only [mem_pistasNaoVazias, List.mem_cons, Sala.node.injEq]
          constructor
          · rintro ((h | ⟨h1, h2⟩) | ⟨h1, h2⟩)
            · exact Or.inl h
            · exact Or.inr ⟨h2, n, e, _, Or.inl ⟨rfl, h1, rfl, rfl⟩⟩
            · obtain ⟨a, b, c1, h3⟩ := h2
              exact Or.inr ⟨h1, a, b, c1, Or.inr h3⟩
          · rintro (h | ⟨h1, a, b, c1, h2 | h2⟩)
            · exact Or.inl (Or.inl h)
            · exact Or.inl (Or.inr ⟨h2.2.1, h1⟩)
            · exact Or.inr ⟨h1, a, b, c1, h2⟩
    · -- the cursor stays: a blocked move or another character
      have hfica : escolher (.node n p e d) c = some (.node n p e d) := by
        simp only [escolher]
        split_ifs with h1 h2 h3 h4 h5
        · exact absurd ⟨h1, h2⟩ hesq
        · rfl
        · exact absurd ⟨h3, h4⟩ hdir
        · rfl
        · rcases h5 with h5 | h5
          · exact absurd h5 hc.1
          · exact absurd h5 hc.2
        · rfl
      obtain ⟨T, hT, hTb, hTm⟩ := ih hcs1 n p e d hmapa _ hcol
      refine ⟨T, ?_, hTb, ?_⟩
      · simp only [List.cons_append, explorarLaco, hfica]
        exact hT
      · intro x
        rw [hTm x, mem_exibir_coletar hp]
        have hsal : salasOcupadas (.node n p e d) (c :: cs) = salasOcupadas (.node n p e d) cs := by
          simp only [salasOcupadas, hesq, hdir, if_false]
        constructor
        · rintro ((h | h) | h)
          · exact Or.inl h
          · exact Or.inr (hself x h)
          · exact Or.inr (hsal ▸ h)
        · rintro (h | h)
          · exact Or.inl (Or.inl h)
          · exact Or.inr (hsal ▸ h)

/-- C8: for every room map built with `criarSala` and every finite sequence
of commands without stop (left, right or any other character) followed by a
stop, `explorarSalas` started with the empty clue tree returns, and the
in-order sequence of the tree it leaves is the sorted, duplicate-free list of
the non-empty clues of the rooms the cursor occupied. -/
theorem explorar_coleta_as_visitadas (mapa : Sala) (hmapa : construidaComCriarSala mapa)
    (cs : List Char) (hcs : ∀ c ∈ cs, c ≠ 's' ∧ c ≠ 'S') (parar : Char)
    (hparar : parar = 's' ∨ parar = 'S') :
    ∃ T, explorarSalas mapa .nil (cs ++ [parar]) = some T
      ∧ exibirPistas T = ordenadaSemRepeticao (pistasNaoVazias (salasOcupadas mapa cs)) := by
  cases mapa with
  | nil =>
    refine ⟨.nil, rfl, ?_⟩
    simp [salasOcupadas, pistasNaoVazias, ordenadaSemRepeticao, exibirPistas]
  | node n p e d =>
    obtain ⟨T, hT, hTb, hTm⟩ := explorarLaco_coleta cs hcs parar hparar n p e d hmapa .nil trivial
    refine ⟨T, hT, crescente_eq_ordenada ((arvoreDeBusca_iff_crescente T).1 hTb) ?_⟩
    intro x
    rw [hTm x]
    simp [exibirPistas]

/-- Witness of C8: a root with the clue `"p"` whose left child has the clue
`"c"`; the commands left, right (blocked), `'x'`, then stop. -/
theorem explorar_coleta_as_visitadas_witness :
    ∃ T, explorarSalas (ligar (criarSala [72] (some [112])) (criarSala [76] (some [99])) .nil)
        .nil (['e', 'd', 'x'] ++ ['s']) = some T
      ∧ exibirPistas T = ordenadaSemRepeticao (pistasNaoVazias (salasOcupadas
          (ligar (criarSala [72] (some [112])) (criarSala [76] (some [99])) .nil)
          ['e', 'd', 'x'])) :=
  explorar_coleta_as_visitadas
    (ligar (criarSala [72] (some [112])) (criarSala [76] (some [99])) .nil) (by decide)
    ['e', 'd', 'x'] (by decide) 's' (Or.inl rfl)

/-! ## Lookups in tables whose keys fit the buffer -/

theorem procurarCadeia_isSome_iff (k : CStr) (c : List HashNode) :
    (procurarCadeia k c).isSome ↔ ∃ n ∈ c, n.pista = k := by
  induction c with
  | nil => simp [procurarCadeia]
  | cons x xs ih =>
    simp only [procurarCadeia, List.mem_cons, exists_eq_or_imp]
    by_cases hx : strcmp x.pista k = 0
    · simp [hx, (strcmp_eq_zero_iff _ _).1 hx, strcmp_self]
    · have hne : x.pista ≠ k := fun h => hx ((strcmp_eq_zero_iff _ _).2 h)
      simp [hx, hne, ih]

/-- In a table whose nodes sit in the buckets of their own keys, a non-empty
key is found exactly when some node of the table stores it. -/
theorem encontrar_isSome_iff {ht : HashTable} (h : ChavesNoLugar ht) (k : CStr) (hk : k ≠ []) :
    (encontrarSuspeito ht (some k)).isSome ↔ ∃ i, ∃ n ∈ ht.buckets i, n.pista = k := by
  have h0 : strlen k ≠ 0 := by simpa [strlen] using hk
  rw [encontrarSuspeito_some ht k h0, procurarCadeia_isSome_iff]
  constructor
  · rintro ⟨n, hn, hnk⟩
    exact ⟨indice k, n, hn, hnk⟩
  · rintro ⟨i, n, hn, hnk⟩
    have hi : indice k = i := by rw [← hnk]; exact h i n hn
    subst hi
    exact ⟨n, hn, hnk⟩

/-! ## The suspect table: missing lookup, chain uniqueness, empty text, bucket placement -/

theorem encontrarSuspeito_none (ht : HashTable) : encontrarSuspeito ht none = none := rfl

theorem encontrarSuspeito_vazia (ht : HashTable) : encontrarSuspeito ht (some []) = none := rfl

/-- Insertions whose keys fit the buffer and differ from `k` do not change
what `encontrarSuspeito` returns for `k`. -/
theorem encontrar_inserirTodas_outras (ps : List (Option CStr × CStr)) (k : Option CStr)
    (hne : ∀ kv ∈ ps, kv.1 ≠ k) (hcabe : ∀ kv ∈ ps, CabeNoNo kv.1) (ht : HashTable) :
    encontrarSuspeito (inserirTodasNaHash ht ps) k = encontrarSuspeito ht k := by
  induction ps generalizing ht with
  | nil => rfl
  | cons kv ps ih =>
    simp only [inserirTodasNaHash, List.foldl_cons]
    have h := ih (fun x hx => hne x (List.mem_cons_of_mem _ hx))
      (fun x hx => hcabe x (List.mem_cons_of_mem _ hx)) (inserirNaHash ht kv.1 kv.2)
    simp only [inserirTodasNaHash] at h
    rw [h]
    exact encontrar_inserir_outra ht k kv.1 kv.2 (hne kv (List.mem_cons_self _ _))
      (hcabe kv (List.mem_cons_self _ _))

/-- A key that is different from the key of every insertion made since
`inicializarHash` is not found, when the keys inserted fit the buffer. -/
theorem encontrar_nunca_inserida (ps : List (Option CStr × CStr)) (k : Option CStr)
    (hne : ∀ kv ∈ ps, kv.1 ≠ k) (hcabe : ∀ kv ∈ ps, CabeNoNo kv.1) :
    encontrarSuspeito (inserirTodasNaHash inicializarHash ps) k = none := by
  rw [encontrar_inserirTodas_outras ps k hne hcabe]
  cases k with
  | none => rfl
  | some s =>
    by_cases h0 : strlen s = 0
    · simp [encontrarSuspeito, h0]
    · rw [encontrarSuspeito_some _ s h0]; rfl

/-- C4 (as amended): for every table (reachable from `inicializarHash` or
not), every key `k` and every finite sequence of `inserirNaHash` calls whose
keys are all different from `k` and fit the key buffer (at most
`MAX_PISTA - 1 = 127` bytes; `NULL` and empty keys allowed),
`encontrarSuspeito(k)` returns the same result after the sequence as before
it, also when keys of the sequence fall into the bucket of `k`. -/
theorem insercoes_alheias_que_cabem (ht : HashTable) (k : Option CStr)
    (ps : List (Option CStr × CStr)) (hne : ∀ kv ∈ ps, kv.1 ≠ k)
    (hcabe : ∀ kv ∈ ps, CabeNoNo kv.1) :
    encontrarSuspeito (inserirTodasNaHash ht ps) k = encontrarSuspeito ht k :=
  encontrar_inserirTodas_outras ps k hne hcabe ht

/-- Witness of C4 (as amended): the table holds `"a"` with suspect `"A"`; the
calls use the keys `"b"`, `NULL`, the empty key and `"ra"`, which has the same
`hash_djb2` as `"a"`; the lookup of `"a"` still returns `"A"`. -/
theorem insercoes_alheias_que_cabem_witness :
    hash_djb2 [114, 97] = hash_djb2 [97]
      ∧ encontrarSuspeito (inserirTodasNaHash (inserirNaHash inicializarHash (some [97]) [65])
          [(some [98], [66]), (none, [67]), (some [], [68]), (some [114, 97], [69])]) (some [97])
        = some [65] :=
  ⟨by decide,
    (insercoes_alheias_que_cabem (inserirNaHash inicializarHash (some [97]) [65]) (some [97])
      [(some [98], [66]), (none, [67]), (some [], [68]), (some [114, 97], [69])] (by decide)
      (by decide)).trans (by decide)⟩

/-- C11 (as amended): for every table built from `inicializarHash` by a
sequence of `inserirNaHash` calls whose keys fit the key buffer (at most
`MAX_PISTA - 1 = 127` bytes), `encontrarSuspeito(k)` returns `NULL` whenever
`k` is `NULL` or empty, or `k` is different from the key of every call made;
being a total function, it has no other way to fail. -/
theorem busca_sem_entrada (ps : List (Option CStr × CStr))
    (hcabe : ∀ kv ∈ ps, CabeNoNo kv.1) (k : Option CStr)
    (hk : k = none ∨ k = some [] ∨ ∀ kv ∈ ps, kv.1 ≠ k) :
    encontrarSuspeito (inserirTodasNaHash inicializarHash ps) k = none := by
  rcases hk with rfl | rfl | hne
  · rfl
  · rfl
  · exact encontrar_nunca_inserida ps k hne hcabe

/-- Witness of C11 (as amended): after the key `"ra"`, the key `"a"`, which
falls into the same bucket, is not found. -/
theorem busca_sem_entrada_witness :
    hash_djb2 [114, 97] = hash_djb2 [97]
      ∧ encontrarSuspeito (inserirTodasNaHash inicializarHash
          [(some [98], [65]), (some [114, 97], [69])]) (some [97]) = none :=
  ⟨by decide,
    busca_sem_entrada [(some [98], [65]), (some [114, 97], [69])] (by decide) (some [97])
      (Or.inr (Or.inr (by decide)))⟩

set_option maxRecDepth 4000 in
/-- C11 (as stated) fails: the table is built from the empty table by the
single call `inserirNaHash(chaveLonga, "X")`, which stores the first 127 bytes
of its key; the key `chaveCheia` is not empty and differs from the key of that
call, yet `encontrarSuspeito` returns `"X"` for it instead of `NULL`. -/
theorem busca_acha_chave_nunca_inserida :
    chaveCheia ≠ []
      ∧ (∀ kv ∈ [(some chaveLonga, [88])], kv.1 ≠ some chaveCheia)
      ∧ encontrarSuspeito (inserirTodasNaHash inicializarHash [(some chaveLonga, [88])])
          (some chaveCheia) = some [88] := by
  decide

set_option maxRecDepth 4000 in
/-- C12 at the failing input: after `inicializarHash`, two calls of
`inserirNaHash` with the same key of 128 bytes leave two chain nodes with the
same stored key (its first 127 bytes) in one bucket: the second call adds a
node instead of overwriting the suspect of the first. -/
theorem chave_longa_duplica_no :
    Alcancavel (inserirNaHash (inserirNaHash inicializarHash (some textoLongo) [88])
        (some textoLongo) [89])
      ∧ (inserirNaHash (inserirNaHash inicializarHash (some textoLongo) [88])
          (some textoLongo) [89]).buckets (indice textoLongo)
        = [{ pista := List.replicate 127 97, suspeito := [89] },
           { pista := List.replicate 127 97, suspeito := [88] }]
      ∧ ¬ ChavesDistintas (inserirNaHash (inserirNaHash inicializarHash (some textoLongo) [88])
          (some textoLongo) [89]) := by
  have hb : (inserirNaHash (inserirNaHash inicializarHash (some textoLongo) [88])
          (some textoLongo) [89]).buckets (indice textoLongo)
        = [{ pista := List.replicate 127 97, suspeito := [89] },
           { pista := List.replicate 127 97, suspeito := [88] }] := by decide
  refine ⟨.passo _ _ _ (.passo _ _ _ .inicio), hb, fun h => ?_⟩
  have h1 := h (indice textoLongo)
  rw [hb] at h1
  exact absurd h1 (by decide)

/-- C13: `inserirPista` with a `NULL` or empty text returns the tree it was
given, and `inserirNaHash` with a `NULL` or empty key returns the table it was
given, every bucket as it was, whatever the suspect name. -/
theorem texto_vazio_ignorado (raiz : PistaNode) (ht : HashTable) (suspeito : CStr) :
    inserirPista raiz none = raiz ∧ inserirPista raiz (some []) = raiz
      ∧ inserirNaHash ht none suspeito = ht ∧ inserirNaHash ht (some []) suspeito = ht
      ∧ (∀ i, (inserirNaHash ht none suspeito).buckets i = ht.buckets i)
      ∧ (∀ i, (inserirNaHash ht (some []) suspeito).buckets i = ht.buckets i) :=
  ⟨inserirPista_none raiz, inserirPista_vazia raiz [] rfl, rfl, rfl, fun _ => rfl,
    fun _ => rfl⟩

set_option maxRecDepth 4000 in
/-- C18 at the failing input: after `inicializarHash` and the single call
`inserirNaHash(chaveLongaZ, "X")`, the node stores the key `chaveCheia`, whose
`hash_djb2` is 8, but sits in bucket 9; `encontrarSuspeito(chaveCheia)` finds
nothing although a node of the table stores that key. -/
theorem no_fora_do_bucket :
    Alcancavel (inserirNaHash inicializarHash (some chaveLongaZ) [88])
      ∧ (inserirNaHash inicializarHash (some chaveLongaZ) [88]).buckets (indice chaveLongaZ)
        = [{ pista := chaveCheia, suspeito := [88] }]
      ∧ hash_djb2 chaveLongaZ = 9 ∧ hash_djb2 chaveCheia = 8
      ∧ encontrarSuspeito (inserirNaHash inicializarHash (some chaveLongaZ) [88])
          (some chaveCheia) = none
      ∧ ¬ ChavesNoLugar (inserirNaHash inicializarHash (some chaveLongaZ) [88]) := by
  have hb : (inserirNaHash inicializarHash (some chaveLongaZ) [88]).buckets (indice chaveLongaZ)
        = [{ pista := chaveCheia, suspeito := [88] }] := by decide
  refine ⟨.passo _ _ _ .inicio, hb, by decide, by decide, by decide, fun h => ?_⟩
  have h1 := h (indice chaveLongaZ) { pista := chaveCheia, suspeito := [88] }
    (by rw [hb]; exact List.mem_singleton.2 rfl)
  exact absurd h1 (by decide)

/-! ## Scenarios on the map of the spec and on the map of main -/

set_option maxRecDepth 20000 in
/-- C14: on the map of the scenario with its table, the commands left, stop
(in either letter case) make `explorarSalas` return the tree whose in-order
sequence is "Pegadas misteriosas no tapete", "Um colar quebrado"; accusing
"Sr. Branco" counts 1 and is insufficient, and so does accusing "Sra. Rosa". -/
theorem cenario_esquerda_parar :
    ∀ esq ∈ ['e', 'E'], ∀ parar ∈ ['s', 'S'],
      explorarSalas mapaCenario .nil [esq, parar] = some arvoreCenario
        ∧ exibirPistas arvoreCenario
            = [literal "Pegadas misteriosas no tapete", literal "Um colar quebrado"]
        ∧ contarPistasParaSuspeito arvoreCenario tabelaCenario (literal "Sr. Branco") = 1
        ∧ verificarSuspeitoFinal arvoreCenario tabelaCenario (some (literal "Sr. Branco"))
            = .insuficiente 1
        ∧ contarPistasParaSuspeito arvoreCenario tabelaCenario (literal "Sra. Rosa") = 1
        ∧ verificarSuspeitoFinal arvoreCenario tabelaCenario (some (literal "Sra. Rosa"))
            = .insuficiente 1 := by
  decide

set_option maxRecDepth 20000 in
/-- Witness of C14: the commands `'e'`, `'s'`. -/
theorem cenario_esquerda_parar_witness :
    explorarSalas mapaCenario .nil ['e', 's'] = some arvoreCenario
      ∧ contarPistasParaSuspeito arvoreCenario tabelaCenario (literal "Sr. Branco") = 1 :=
  have h := cenario_esquerda_parar 'e' (by decide) 's' (by decide)
  ⟨h.1, h.2.2.1⟩

set_option maxRecDepth 20000 in
/-- C15: on the map and the table that `main` builds, the commands left,
left, stop (in either letter case) take the cursor through "Hall de
Entrada", "Sala de Estar" and "Cozinha" and make `explorarSalas` return the
tree with the clues of these rooms; accusing "Sr. Branco" counts exactly 2 and
the verdict is sufficient. -/
theorem main_esquerda_esquerda_parar :
    ∀ esq1 ∈ ['e', 'E'], ∀ esq2 ∈ ['e', 'E'], ∀ parar ∈ ['s', 'S'],
      explorarSalas mapaMain .nil [esq1, esq2, parar] = some arvoreCozinha
        ∧ nomesDasSalas (salasOcupadas mapaMain [esq1, esq2])
            = [literal "Hall de Entrada", literal "Sala de Estar", literal "Cozinha"]
        ∧ exibirPistas arvoreCozinha
            = [literal "Faca com marcas de sangue", literal "Pegadas misteriosas no tapete",
               literal "Um colar quebrado"]
        ∧ contarPistasParaSuspeito arvoreCozinha tabelaMain (literal "Sr. Branco") = 2
        ∧ verificarSuspeitoFinal arvoreCozinha tabelaMain (some (literal "Sr. Branco"))
            = .suficiente 2 := by
  decide

set_option maxRecDepth 20000 in
/-- Witness of C15: the commands `'e'`, `'e'`, `'s'`. -/
theorem main_esquerda_esquerda_parar_witness :
    explorarSalas mapaMain .nil ['e', 'e', 's'] = some arvoreCozinha
      ∧ verificarSuspeitoFinal arvoreCozinha tabelaMain (some (literal "Sr. Branco"))
          = .suficiente 2 :=
  have h := main_esquerda_esquerda_parar 'e' (by decide) 'e' (by decide) 's' (by decide)
  ⟨h.1, h.2.2.2.2⟩

/-! ## The hash function -/

/-- The shift form of the loop body is the multiplication by 33 under the
wraparound of 64 bits. -/
theorem shift_eq_mul33 (h : Nat) : ((h <<< 5) % 2 ^ 64 + h) % 2 ^ 64 = h * 33 % 2 ^ 64 := by
  rw [Nat.shiftLeft_eq]
  omega

theorem hashLaco_eq_foldl (s : CStr) (hbytes : ∀ b ∈ s, b < 256) (h : Nat) :
    hashLaco h s = s.foldl (fun h byte => (h * 33 + byte) % 2 ^ 64) h := by
  induction s generalizing h with
  | nil => rfl
  | cons c cs ih =>
    have hc : c < 256 := hbytes c (List.mem_cons_self _ _)
    simp only [hashLaco, List.foldl_cons]
    rw [ih (fun b hb => hbytes b (List.mem_cons_of_mem _ hb))]
    congr 1
    rw [Nat.shiftLeft_eq, Nat.mod_eq_of_lt hc]
    omega

/-- C16: for every byte string, `hash_djb2` is the reference djb2 (seed 5381,
`h := (h * 33 + byte) mod 2^64` per byte, then `mod 101`); the shift form
`(h << 5) + h` agrees with `h * 33` under the wraparound of 64 bits; and the
result is a bucket index in `0..100`. -/
theorem hash_djb2_eq_referencia (s : CStr) (hbytes : ∀ b ∈ s, b < 256) :
    hash_djb2 s = djb2Referencia s
      ∧ (∀ h, ((h <<< 5) % 2 ^ 64 + h) % 2 ^ 64 = h * 33 % 2 ^ 64)
      ∧ hash_djb2 s < HASH_SIZE := by
  have hlt : hashLaco 5381 s % HASH_SIZE < HASH_SIZE := Nat.mod_lt _ (by decide)
  have h1 : hash_djb2 s = hashLaco 5381 s % HASH_SIZE := by
    unfold hash_djb2
    exact Nat.mod_eq_of_lt (Nat.lt_trans hlt (by decide))
  refine ⟨?_, shift_eq_mul33, ?_⟩
  · rw [h1, hashLaco_eq_foldl s hbytes]; rfl
  · rw [h1]; exact hlt

/-- Witness of C16: the string `"a"`, whose hash is `(5381 * 33 + 97) mod 101 = 11`. -/
theorem hash_djb2_eq_referencia_witness :
    hash_djb2 [97] = djb2Referencia [97] ∧ djb2Referencia [97] = 11 :=
  ⟨(hash_djb2_eq_referencia [97] (by decide)).1, by decide⟩

/-! ## The count along the exploration -/

theorem contar_eq_soma (raiz : PistaNode) (ht : HashTable) (alvo : CStr) :
    contarPistasParaSuspeito raiz ht alvo
      = ((exibirPistas raiz).map (pesoDaPista ht alvo)).sum := by
  induction raiz with
  | nil => rfl
  | node p e d ihe ihd =>
    simp only [contarPistasParaSuspeito, exibirPistas, List.map_append, List.map_cons,
      List.sum_append, List.sum_cons, ihe, ihd, pesoDaPista]
    cases encontrarSuspeito ht (some p) with
    | none => simp only []; omega
    | some s => simp only []; omega

/-- An insertion never lowers the count. -/
theorem contar_le_inserir (t : PistaNode) (s : Option CStr) (ht : HashTable) (alvo : CStr) :
    contarPistasParaSuspeito t ht alvo
      ≤ contarPistasParaSuspeito (inserirPista t s) ht alvo := by
  cases s with
  | none => rw [inserirPista_none]
  | some s =>
    by_cases h0 : strlen s = 0
    · rw [inserirPista_vazia t s h0]
    induction t with
    | nil => simp [contarPistasParaSuspeito]
    | node p e d ihe ihd =>
      rw [inserirPista_some_node s p e d h0]
      split_ifs
      · simp only [contarPistasParaSuspeito]; omega
      · simp only [contarPistasParaSuspeito]; omega
      · exact Nat.le_refl _

theorem contar_le_coletar (atual : Sala) (t : PistaNode) (ht : HashTable) (alvo : CStr) :
    contarPistasParaSuspeito t ht alvo
      ≤ contarPistasParaSuspeito (coletar atual t) ht alvo := by
  cases atual with
  | nil => exact Nat.le_refl _
  | node n p e d => rw [coletar_node]; exact contar_le_inserir t (some p) ht alvo

theorem contar_le_aposLaco (cs : List Char) (atual : Sala) (t : PistaNode) (ht : HashTable)
    (alvo : CStr) :
    contarPistasParaSuspeito t ht alvo
      ≤ contarPistasParaSuspeito (pistasAposLaco atual t cs) ht alvo := by
  induction cs generalizing atual t with
  | nil => exact contar_le_coletar atual t ht alvo
  | cons c cs ih =>
    simp only [pistasAposLaco]
    cases escolher atual c with
    | none => exact contar_le_coletar atual t ht alvo
    | some prox => exact Nat.le_trans (contar_le_coletar atual t ht alvo) (ih prox _)

theorem contar_aposLaco_mono (pre suf : List Char) (atual : Sala) (t : PistaNode)
    (ht : HashTable) (alvo : CStr) :
    contarPistasParaSuspeito (pistasAposLaco atual t pre) ht alvo
      ≤ contarPistasParaSuspeito (pistasAposLaco atual t (pre ++ suf)) ht alvo := by
  induction pre generalizing atual t with
  | nil =>
    cases suf with
    | nil => exact Nat.le_refl _
    | cons c cs =>
      simp only [List.nil_append, pistasAposLaco]
      cases escolher atual c with
      | none => exact Nat.le_refl _
      | some prox => exact contar_le_aposLaco cs prox _ ht alvo
  | cons c pre ih =>
    simp only [List.cons_append, pistasAposLaco]
    cases escolher atual c with
    | none => exact Nat.le_refl _
    | some prox => exact ih prox _

/-- When `explorarSalas` returns, it returns the tree that `pistasApos`
gives for the whole input. -/
theorem explorarLaco_eq_apos (cs : List Char) (atual : Sala) (t T : PistaNode)
    (h : explorarLaco atual t cs = some T) : T = pistasAposLaco atual t cs := by
  induction cs generalizing atual t with
  | nil => simp [explorarLaco] at h
  | cons c cs ih =>
    simp only [explorarLaco, pistasAposLaco] at h ⊢
    cases hesc : escolher atual c with
    | none => rw [hesc] at h; simpa using h.symm
    | some prox => rw [hesc] at h; exact ih prox _ h

theorem explorarSalas_eq_apos (cs : List Char) (atual : Sala) (t T : PistaNode)
    (h : explorarSalas atual t cs = some T) : T = pistasApos atual t cs := by
  cases atual with
  | nil => simpa [explorarSalas, pistasApos] using h.symm
  | node n p e d => exact explorarLaco_eq_apos cs _ t T h

/-! ## Order of insertion and monotonicity of the count -/

/-- Two sequences of texts that fit the node buffer, one a permutation of the
other, leave trees with the same in-order sequence. -/
theorem exibir_inserirTodas_perm {ps qs : List (Option CStr)} (hperm : ps.Perm qs)
    (hcabe : ∀ o ∈ ps, CabeNoNo o) :
    exibirPistas (inserirTodas .nil ps) = exibirPistas (inserirTodas .nil qs) := by
  have hp : ∀ x, some x ∈ ps → strlen x < MAX_PISTA := fun x hx => hcabe (some x) hx
  have hq : ∀ x, some x ∈ qs → strlen x < MAX_PISTA :=
    fun x hx => hcabe (some x) (hperm.mem_iff.2 hx)
  have h1 := (arvoreDeBusca_iff_crescente _).1 (arvoreDeBusca_inserirTodas ps hp .nil trivial)
  have h2 := (arvoreDeBusca_iff_crescente _).1 (arvoreDeBusca_inserirTodas qs hq .nil trivial)
  rw [crescente_eq_ordenada h1 (m := exibirPistas (inserirTodas .nil qs)),
    ← crescente_eq_ordenada h2 (m := exibirPistas (inserirTodas .nil qs)) (fun _ => Iff.rfl)]
  intro x
  rw [mem_inserirTodas_iff ps hp, mem_inserirTodas_iff qs hq, hperm.mem_iff]

/-- For texts that fit the node buffer, the count does not depend on the
order of the insertions. -/
theorem contar_inserirTodas_perm {ps qs : List (Option CStr)} (hperm : ps.Perm qs)
    (hcabe : ∀ o ∈ ps, CabeNoNo o) (ht : HashTable) (alvo : CStr) :
    contarPistasParaSuspeito (inserirTodas .nil ps) ht alvo
      = contarPistasParaSuspeito (inserirTodas .nil qs) ht alvo := by
  rw [contar_eq_soma, contar_eq_soma, exibir_inserirTodas_perm hperm hcabe]

set_option maxRecDepth 8000 in
/-- C17 at the failing input: the texts are 128 bytes `'a'` and 127 bytes
`'a'`, the table maps 127 bytes `'a'` to `"X"`, the accused is `"X"`.  Inserted
in this order the tree has one node and the count is 1; inserted in the other
order the tree has two nodes with the same text and the count is 2, which
also turns the verdict from insufficient into sufficient. -/
theorem ordem_muda_a_contagem :
    [some textoLongo, some chaveCheia].Perm [some chaveCheia, some textoLongo]
      ∧ contarPistasParaSuspeito (inserirTodas .nil [some textoLongo, some chaveCheia])
          (inserirNaHash inicializarHash (some chaveCheia) [88]) [88] = 1
      ∧ contarPistasParaSuspeito (inserirTodas .nil [some chaveCheia, some textoLongo])
          (inserirNaHash inicializarHash (some chaveCheia) [88]) [88] = 2
      ∧ inserirTodas .nil [some chaveCheia, some textoLongo]
          = .node chaveCheia .nil (.node chaveCheia .nil .nil)
      ∧ verificarSuspeitoFinal (inserirTodas .nil [some textoLongo, some chaveCheia])
          (inserirNaHash inicializarHash (some chaveCheia) [88]) (some [88]) = .insuficiente 1
      ∧ verificarSuspeitoFinal (inserirTodas .nil [some chaveCheia, some textoLongo])
          (inserirNaHash inicializarHash (some chaveCheia) [88]) (some [88]) = .suficiente 2 :=
  ⟨List.Perm.swap _ _ _, by decide, by decide, by decide, by decide, by decide⟩

/-- C19: for every room map, starting clue tree, table, accused name and
command sequence, the count on the clue tree after a prefix of the sequence is
at most the count on the clue tree after the whole sequence, which is the tree
`explorarSalas` returns when it returns; so a sufficient verdict after the
prefix stays sufficient after the whole sequence. -/
theorem contagem_monotona_na_exploracao (mapa : Sala) (pistasRaiz : PistaNode)
    (ht : HashTable) (acusado : CStr) (pre suf : List Char) :
    contarPistasParaSuspeito (pistasApos mapa pistasRaiz pre) ht acusado
        ≤ contarPistasParaSuspeito (pistasApos mapa pistasRaiz (pre ++ suf)) ht acusado
      ∧ (∀ T, explorarSalas mapa pistasRaiz (pre ++ suf) = some T →
          contarPistasParaSuspeito (pistasApos mapa pistasRaiz pre) ht acusado
            ≤ contarPistasParaSuspeito T ht acusado)
      ∧ (∀ q, verificarSuspeitoFinal (pistasApos mapa pistasRaiz pre) ht (some acusado)
            = .suficiente q →
          verificarSuspeitoFinal (pistasApos mapa pistasRaiz (pre ++ suf)) ht (some acusado)
            = .suficiente
                (contarPistasParaSuspeito (pistasApos mapa pistasRaiz (pre ++ suf)) ht
                  acusado)) := by
  have hmono : contarPistasParaSuspeito (pistasApos mapa pistasRaiz pre) ht acusado
      ≤ contarPistasParaSuspeito (pistasApos mapa pistasRaiz (pre ++ suf)) ht acusado := by
    cases mapa with
    | nil => exact Nat.le_refl _
    | node n p e d => exact contar_aposLaco_mono pre suf _ pistasRaiz ht acusado
  refine ⟨hmono, fun T hT => ?_, fun q hq => ?_⟩
  · rw [explorarSalas_eq_apos _ _ _ _ hT]; exact hmono
  · simp only [verificarSuspeitoFinal] at hq ⊢
    split_ifs at hq with h0 h2
    have h3 : 2 ≤ contarPistasParaSuspeito (pistasApos mapa pistasRaiz (pre ++ suf)) ht
        acusado := Nat.le_trans h2 hmono
    simp [h0, h3]

set_option maxRecDepth 20000 in
/-- Witness of C19: on the map and the table of `main`, accusing
"Sr. Branco": the count is 1 after the command left and 2 for the tree
returned after left, left, stop. -/
theorem contagem_monotona_na_exploracao_witness :
    contarPistasParaSuspeito (pistasApos mapaMain .nil ['e']) tabelaMain srBranco = 1
      ∧ explorarSalas mapaMain .nil (['e'] ++ ['e', 's']) = some arvoreCozinha
      ∧ contarPistasParaSuspeito (pistasApos mapaMain .nil ['e']) tabelaMain srBranco
          ≤ contarPistasParaSuspeito arvoreCozinha tabelaMain srBranco :=
  ⟨by decide, by decide,
    (contagem_monotona_na_exploracao mapaMain .nil tabelaMain srBranco ['e'] ['e', 's']).2.1
      arvoreCozinha (by decide)⟩

/-! ## The clues of the map of main -/

theorem soma_le_de_subconjunto {l m : List CStr} (f : CStr → Nat) (hn : l.Nodup)
    (hsub : ∀ x ∈ l, x ∈ m) : (l.map f).sum ≤ (m.map f).sum := by
  obtain ⟨l1, hperm, hsubl⟩ := List.subperm_of_subset hn hsub
  have h1 : (l.map f).sum = (l1.map f).sum := ((hperm.map f).sum_eq).symm
  rw [h1]
  exact List.Sublist.sum_le_sum (hsubl.map f) (fun _ _ => Nat.zero_le _)

/-- The clue of every room the cursor occupies is a clue of the map. -/
theorem pista_ocupada_no_mapa (cs : List Char) (mapa : Sala) (n x : CStr) (e d : Sala)
    (h : Sala.node n x e d ∈ salasOcupadas mapa cs) : x ∈ todasAsPistas mapa := by
  induction cs generalizing mapa with
  | nil =>
    cases mapa with
    | nil => simp [salasOcupadas] at h
    | node n1 p1 e1 d1 =>
      simp only [salasOcupadas, List.mem_singleton, Sala.node.injEq] at h
      simp [todasAsPistas, h.2.1]
  | cons c cs ih =>
    cases mapa with
    | nil => simp [salasOcupadas] at h
    | node n1 p1 e1 d1 =>
      simp only [salasOcupadas] at h
      simp only [todasAsPistas, List.mem_cons, List.mem_append]
      split_ifs at h
      · rcases List.mem_cons.1 h with h1 | h1
        · simp only [Sala.node.injEq] at h1
          exact Or.inl h1.2.1
        · exact Or.inr (Or.inl (ih e1 h1))
      · rcases List.mem_cons.1 h with h1 | h1
        · simp only [Sala.node.injEq] at h1
          exact Or.inl h1.2.1
        · exact Or.inr (Or.inr (ih d1 h1))
      · have h2 := ih _ h
        simpa [todasAsPistas] using h2

set_option maxRecDepth 20000 in
theorem todasAsPistas_mapaMain :
    todasAsPistas mapaMain
      = [pistaPegadas, pistaColar, pistaFaca, pistaMapa, pistaLuva, pistaLivro, pistaFrascos] := by
  decide

set_option maxRecDepth 20000 in
/-- What the table of `main` returns for each of the seven clues. -/
theorem tabelaMain_suspeitos :
    encontrarSuspeito tabelaMain (some pistaPegadas) = some srBranco
      ∧ encontrarSuspeito tabelaMain (some pistaColar) = some sraRosa
      ∧ encontrarSuspeito tabelaMain (some pistaFaca) = some srBranco
      ∧ encontrarSuspeito tabelaMain (some pistaMapa) = some sraRosa
      ∧ encontrarSuspeito tabelaMain (some pistaLuva) = some srCinza
      ∧ encontrarSuspeito tabelaMain (some pistaLivro) = some profVerde
      ∧ encontrarSuspeito tabelaMain (some pistaFrascos) = some profVerde := by
  decide

/-- The seven clues of the map of `main` give no suspect more than two
nodes, and "Sr. Cinza" no more than one. -/
theorem soma_das_sete_pistas (a : CStr) :
    ((todasAsPistas mapaMain).map (pesoDaPista tabelaMain a)).sum ≤ 2
      ∧ ((todasAsPistas mapaMain).map (pesoDaPista tabelaMain srCinza)).sum ≤ 1 := by
  obtain ⟨h1, h2, h3, h4, h5, h6, h7⟩ := tabelaMain_suspeitos
  have hBR : srBranco ≠ sraRosa := by decide
  have hBV : srBranco ≠ profVerde := by decide
  have hBC : srBranco ≠ srCinza := by decide
  have hRV : sraRosa ≠ profVerde := by decide
  have hRC : sraRosa ≠ srCinza := by decide
  have hVC : profVerde ≠ srCinza := by decide
  rw [todasAsPistas_mapaMain]
  simp only [List.map_cons, List.map_nil, List.sum_cons, List.sum_nil, pesoDaPista, h1, h2, h3,
    h4, h5, h6, h7, strcmp_eq_zero_iff]
  constructor
  · by_cases hB : srBranco = a
    · have hR : ¬ sraRosa = a := fun h => hBR (hB.trans h.symm)
      have hV : ¬ profVerde = a := fun h => hBV (hB.trans h.symm)
      have hC : ¬ srCinza = a := fun h => hBC (hB.trans h.symm)
      rw [if_pos hB, if_neg hR, if_neg hV, if_neg hC]
      decide
    · by_cases hR : sraRosa = a
      · have hV : ¬ profVerde = a := fun h => hRV (hR.trans h.symm)
        have hC : ¬ srCinza = a := fun h => hRC (hR.trans h.symm)
        rw [if_neg hB, if_pos hR, if_neg hV, if_neg hC]
        decide
      · by_cases hV : profVerde = a
        · have hC : ¬ srCinza = a := fun h => hVC (hV.trans h.symm)
          rw [if_neg hB, if_neg hR, if_pos hV, if_neg hC]
          decide
        · rw [if_neg hB, if_neg hR, if_neg hV]
          split_ifs <;> omega
  · rw [if_neg hBC, if_neg hRC, if_neg hVC]
    simp

/-! ## Bound on the evidence in the game of main -/

/-- On a map built with `criarSala`, after commands without stop followed by
a stop, `explorarSalas` started with the empty tree returns a tree whose count
is at most the sum over the clues of the whole map. -/
theorem contar_le_soma_do_mapa (mapa : Sala) (hmapa : construidaComCriarSala mapa)
    (cs : List Char) (hcs : ∀ c ∈ cs, c ≠ 's' ∧ c ≠ 'S') (parar : Char)
    (hparar : parar = 's' ∨ parar = 'S') (ht : HashTable) :
    ∃ T, explorarSalas mapa .nil (cs ++ [parar]) = some T
      ∧ ∀ alvo, contarPistasParaSuspeito T ht alvo
          ≤ ((todasAsPistas mapa).map (pesoDaPista ht alvo)).sum := by
  cases mapa with
  | nil => exact ⟨.nil, rfl, fun _ => Nat.le_refl _⟩
  | node n p e d =>
    obtain ⟨T, hT, hTb, hTm⟩ := explorarLaco_coleta cs hcs parar hparar n p e d hmapa .nil trivial
    refine ⟨T, hT, fun alvo => ?_⟩
    rw [contar_eq_soma]
    refine soma_le_de_subconjunto _ (crescente_nodup ((arvoreDeBusca_iff_crescente T).1 hTb)) ?_
    intro x hx
    rcases (hTm x).1 hx with h | h
    · simp [exibirPistas] at h
    · obtain ⟨_, n1, e1, d1, h1⟩ := mem_pistasNaoVazias.1 h
      exact pista_ocupada_no_mapa cs _ n1 x e1 d1 h1

set_option maxRecDepth 20000 in
theorem construida_mapaMain : construidaComCriarSala mapaMain := by decide

/-- C20: on the map and the table that `main` builds, for every finite
sequence of commands without stop followed by a stop, `explorarSalas` started
with the empty tree returns a tree on which the count is at most 2 for every
accused name and at most 1 for "Sr. Cinza", against whom the verdict is
therefore the insufficient one. -/
theorem evidencia_limitada_em_main (cs : List Char) (hcs : ∀ c ∈ cs, c ≠ 's' ∧ c ≠ 'S')
    (parar : Char) (hparar : parar = 's' ∨ parar = 'S') (acusado : CStr) :
    ∃ T, explorarSalas mapaMain .nil (cs ++ [parar]) = some T
      ∧ contarPistasParaSuspeito T tabelaMain acusado ≤ 2
      ∧ contarPistasParaSuspeito T tabelaMain (literal "Sr. Cinza") ≤ 1
      ∧ verificarSuspeitoFinal T tabelaMain (some (literal "Sr. Cinza"))
          = .insuficiente (contarPistasParaSuspeito T tabelaMain (literal "Sr. Cinza")) := by
  obtain ⟨T, hT, hle⟩ := contar_le_soma_do_mapa mapaMain construida_mapaMain cs hcs parar hparar
    tabelaMain
  have h2 := Nat.le_trans (hle acusado) (soma_das_sete_pistas acusado).1
  have h1 : contarPistasParaSuspeito T tabelaMain (literal "Sr. Cinza") ≤ 1 :=
    Nat.le_trans (hle srCinza) (soma_das_sete_pistas acusado).2
  refine ⟨T, hT, h2, h1, ?_⟩
  have h0 : strlen (literal "Sr. Cinza") ≠ 0 := by decide
  have hn : ¬ 2 ≤ contarPistasParaSuspeito T tabelaMain (literal "Sr. Cinza") := by omega
  simp only [verificarSuspeitoFinal, h0, if_false, ge_iff_le, hn]

set_option maxRecDepth 20000 in
/-- Witness of C20: the commands left, right, stop, which visit "Hall de
Entrada", "Sala de Estar" and "Jardim", and the accused "Sr. Cinza". -/
theorem evidencia_limitada_em_main_witness :
    ∃ T, explorarSalas mapaMain .nil (['e', 'd'] ++ ['s']) = some T
      ∧ contarPistasParaSuspeito T tabelaMain (literal "Sr. Cinza") ≤ 2
      ∧ contarPistasParaSuspeito T tabelaMain (literal "Sr. Cinza") ≤ 1
      ∧ verificarSuspeitoFinal T tabelaMain (some (literal "Sr. Cinza"))
          = .insuficiente (contarPistasParaSuspeito T tabelaMain (literal "Sr. Cinza")) :=
  evidencia_limitada_em_main ['e', 'd'] (by decide) 's' (Or.inl rfl) (literal "Sr. Cinza")

end DetectiveQuest
